import Mathlib

/-!
# Spin Cycle core: a shallow embedding with verified properties

This file embeds the core of the Spin Cycle job-chain orchestration system
in Lean 4 and proves properties of it:

* the template Grapher (`request-manager/template/grapher.go`):
  `getMissingArgs`, `getActualSets`, `getMissingSets`, `getAllSequenceArgs`,
  `getTemplate`, `buildSequence`, `CreateTemplates`;
* the Job Runner traverser (`job-runner/chain`): `MakeFromSJC`, `Stop`,
  the per-job worker goroutine body of `runJobs`, and `sendJL`;
* the spec post-processing pass `ProcessSpecs`.

Go maps are embedded as association lists (`List (String × _)`) whose list
order stands for one iteration order of the Go map; Go `map[string]bool` sets
are embedded as duplicate-free `List String` grown with `insertArg`.
Components of the repository whose source is not available (the template
`Graph` internals, the `Chain` accessors, `ProcessSpecs`, `retry.Do`) are
modelled from the specification; each such definition says so in its
doc comment.
-/

namespace SpinCycle

/-! ## Spec data model (`spec` package) -/

/-- `spec.Arg`: a named sequence argument with an optional default. -/
structure SArg where
  name : String
  defaultVal : Option String
deriving DecidableEq, Repr

/-- `spec.SequenceArgs`: the three buckets of declared sequence args. -/
structure SequenceArgs where
  required : List SArg
  optional : List SArg
  static : List SArg
deriving DecidableEq, Repr

/-- `spec.NodeArg`: one entry of a node's `args:` list (`Expected`, `Given`).
`Given` is a `*string` in Go, hence `Option`. -/
structure NodeArg where
  expected : String
  given : Option String
deriving DecidableEq, Repr

/-- `spec.NodeSet`: one entry of a node's `sets:` list (`Arg`, `As`).
`As` is a `*string` in Go, hence `Option`. -/
structure NodeSet where
  arg : String
  asName : Option String
deriving DecidableEq, Repr

/-- `spec.Node`: the static definition of one node in a sequence.
Pointer-typed Go fields (`Category`, `NodeType`, `If`) become `Option`. -/
structure SNode where
  name : String
  category : Option String
  nodeType : Option String
  each : List String
  ifArg : Option String
  eq : List (String × String)
  args : List NodeArg
  sets : List NodeSet
  deps : List String
  retry : Nat
  retryWait : String
deriving DecidableEq, Repr

/-- `spec.Sequence`: a named collection of nodes plus declared args.
`nodes` keeps the map as an association list (key, node). -/
structure SSequence where
  name : String
  request : Bool
  args : SequenceArgs
  nodes : List (String × SNode)
deriving DecidableEq, Repr

/-- Association-list lookup, mirroring Go's `m[k]` (first match wins). -/
def assoc {α : Type} (l : List (String × α)) (k : String) : Option α :=
  match l.find? (fun p => p.1 == k) with
  | some p => some p.2
  | none => none

/-- Modelled from the spec: `spec.Node.IsSequence` — a node is a sequence
node iff its `Category` is `"sequence"`. -/
def SNode.IsSequence (n : SNode) : Bool :=
  n.category == some "sequence"

/-- Modelled from the spec: `spec.Node.IsConditional` — a node is a
conditional node iff its `Category` is `"conditional"`. -/
def SNode.IsConditional (n : SNode) : Bool :=
  n.category == some "conditional"

/-! ## Grapher: job-arg set operations -/

/-- Add one element to a `map[string]bool`-style set kept as a
duplicate-free list (`jobArgs[a] = true`). -/
def insertArg (l : List String) (a : String) : List String :=
  if l.contains a then l else l ++ [a]

/-- `getAllSequenceArgs`: the minimal set of job args the sequence starts
with — the names of its required, optional and static declared args. -/
def getAllSequenceArgs (seq : SSequence) : List String :=
  let l1 := seq.args.required.foldl (fun ja a => insertArg ja a.name) []
  let l2 := seq.args.optional.foldl (fun ja a => insertArg ja a.name) l1
  seq.args.static.foldl (fun ja a => insertArg ja a.name) l2

/-- The structured payloads of the errors `grapher.go` builds with
`fmt.Errorf`. -/
inductive GraphErr where
  | malformedEach (node : String)
  | missingArgs (node : String) (missing : List String)
  | impossibleDeps (remaining : List String)
  | malformedGraph
  | cannotFindDefinition
  | failedSubsequences
  | missingSets (pairs : List (String × List String))
deriving DecidableEq, Repr

/-- `getMissingArgs`: node args not present in the job args map.
Mirrors the three passes of the Go function: `Each` entries (empty entries
skipped, entries that do not split into two parts around `:` are a
malformed-input error returned immediately), the `If` arg, then every
`Args` entry's `Given` (a `*string` dereference in Go, embedded as
`getD ""`).  The partial `missing` list Go returns alongside the
malformed-`each` error is never read by the caller, so the error
short-circuits here. -/
def getMissingArgs (n : SNode) (jobArgs : List String) :
    Except GraphErr (List String) :=
  if n.each.any (fun e => e != "" && (e.splitOn ":").length != 2) then
    Except.error (GraphErr.malformedEach n.name)
  else
    let m1 := (n.each.filter (fun e => e != "")).foldl (fun m e =>
        let iterateSet := (e.splitOn ":").headD ""
        if !jobArgs.contains iterateSet then m ++ [iterateSet] else m) []
    let m2 := match n.ifArg with
      | some c => if !jobArgs.contains c then m1 ++ [c] else m1
      | none => m1
    Except.ok (n.args.foldl (fun m a =>
        if !jobArgs.contains (a.given.getD "") then m ++ [a.given.getD ""]
        else m) m2)

/-- `dependenciesSatisfied`: every dependency's node is already in the
graph.  `added` carries the names of inserted nodes (node identity is the
name, as processed specs set `Name` from the map key). -/
def dependenciesSatisfied (added : List String) (deps : List String)
    (nodes : List (String × SNode)) : Bool :=
  deps.all (fun d =>
    match assoc nodes d with
    | some nd => added.contains nd.name
    | none => false)

/-- Add the `As` names of one node's `Sets` entries to the job args set
(the `jobArgs[*nodeSet.As] = true` loop of `getTemplate`). -/
def addNodeSets (ja : List String) (nd : SNode) : List String :=
  nd.sets.foldl (fun ja s => insertArg ja (s.asName.getD "")) ja

/-- The job args live after inserting `order`'s nodes, in order, starting
from `init`. -/
def argsAfter (init : List String) (order : List SNode) : List String :=
  order.foldl addNodeSets init

/-- One traversal of `componentsToAdd` (the inner `for` of `getTemplate`'s
insertion loop): each node whose dependencies are satisfied is arg-checked
and inserted; the rest remain.  Returns the remaining nodes, the updated
`componentsAdded` names, the updated job args, and the nodes inserted by
this pass in order. -/
def passOnce (nodes : List (String × SNode)) :
    List SNode → List String → List String →
    Except GraphErr (List SNode × List String × List String × List SNode)
  | [], added, jobArgs => Except.ok ([], added, jobArgs, [])
  | n :: rest, added, jobArgs =>
    if dependenciesSatisfied added n.deps nodes then
      match getMissingArgs n jobArgs with
      | Except.error e => Except.error e
      | Except.ok missing =>
        if missing.isEmpty then
          match passOnce nodes rest (added ++ [n.name]) (addNodeSets jobArgs n) with
          | Except.error e => Except.error e
          | Except.ok (rem, added', jobArgs', inserted) =>
            Except.ok (rem, added', jobArgs', n :: inserted)
        else
          Except.error (GraphErr.missingArgs n.name missing)
    else
      match passOnce nodes rest added jobArgs with
      | Except.error e => Except.error e
      | Except.ok (rem, added', jobArgs', inserted) =>
        Except.ok (n :: rem, added', jobArgs', inserted)

/-- A pass splits the worklist: remaining plus inserted account for every
node given to the pass. -/
theorem passOnce_length (nodes : List (String × SNode)) :
    ∀ (toAdd : List SNode) (added jobArgs : List String)
      (rem : List SNode) (added' jobArgs' : List String) (ins : List SNode),
      passOnce nodes toAdd added jobArgs =
        Except.ok (rem, added', jobArgs', ins) →
      rem.length + ins.length = toAdd.length := by
  intro toAdd
  induction toAdd with
  | nil =>
    intro added jobArgs rem added' jobArgs' ins h
    simp [passOnce] at h
    simp [h.1, h.2.2.2]
  | cons n rest ih =>
    intro added jobArgs rem added' jobArgs' ins h
    simp only [passOnce] at h
    by_cases hdep : dependenciesSatisfied added n.deps nodes
    · simp only [hdep, if_pos] at h
      cases hma : getMissingArgs n jobArgs with
      | error e => rw [hma] at h; exact absurd h (by simp)
      | ok missing =>
        rw [hma] at h
        by_cases hm : missing.isEmpty
        · simp only [hm, if_pos] at h
          cases hrec : passOnce nodes rest (added ++ [n.name])
              (addNodeSets jobArgs n) with
          | error e => rw [hrec] at h; exact absurd h (by simp)
          | ok q =>
            obtain ⟨rem1, added1, jobArgs1, ins1⟩ := q
            rw [hrec] at h
            simp only [Except.ok.injEq, Prod.mk.injEq] at h
            obtain ⟨h1, h2, h3, h4⟩ := h
            subst h1; subst h4
            have := ih _ _ rem1 added1 jobArgs1 ins1 hrec
            simp [List.length_cons]
            omega
        · simp only [hm, if_neg, if_false] at h
          exact absurd h (by simp)
    · simp only [hdep, if_neg, if_false] at h
      cases hrec : passOnce nodes rest added jobArgs with
      | error e => rw [hrec] at h; exact absurd h (by simp)
      | ok q =>
        obtain ⟨rem1, added1, jobArgs1, ins1⟩ := q
        rw [hrec] at h
        injection h with h'
        have e1 : n :: rem1 = rem := congrArg Prod.fst h'
        have e4 : ins1 = ins := congrArg (fun t => t.2.2.2) h'
        have := ih _ _ rem1 added1 jobArgs1 ins1 hrec
        subst e1; subst e4
        simp [List.length_cons]
        omega

/-- The outer insertion loop of `getTemplate`
(`for len(componentsToAdd) > 0`).  Each round runs one pass; if the pass
inserted nothing the remaining nodes have impossible dependencies.
Returns the final job args and the full insertion order on success.
Go's loop needs no fuel because every productive pass strictly shrinks
the worklist (`passOnce_length`); the fuel here only makes the recursion
structural, and `getTemplate` supplies `worklist length + 1`, so the
fuel-exhausted arm is unreachable. -/
def insertLoop (nodes : List (String × SNode)) :
    Nat → List SNode → List String → List String → List SNode →
    Except GraphErr (List String × List SNode)
  | fuel, toAdd, added, jobArgs, order =>
    if toAdd.isEmpty then Except.ok (jobArgs, order)
    else
      match fuel with
      | 0 => Except.error (GraphErr.impossibleDeps (toAdd.map (fun c => c.name)))
      | Nat.succ fuel =>
        match passOnce nodes toAdd added jobArgs with
        | Except.error e => Except.error e
        | Except.ok (rem, added', jobArgs', inserted) =>
          if inserted.isEmpty then
            Except.error (GraphErr.impossibleDeps (rem.map (fun c => c.name)))
          else
            insertLoop nodes fuel rem added' jobArgs' (order ++ inserted)

/-- `template.Graph`, as much of it as `grapher.go` observes: the sequence
name, the final job args recorded as `sets`, and the insertion order of
the interior nodes (the order in which `addNodeAfter` placed them between
the sentinels). -/
structure Template where
  name : String
  sets : List String
  order : List SNode
deriving DecidableEq, Repr

instance : Inhabited SNode :=
  ⟨⟨"", none, none, [], none, [], [], [], [], 0, ""⟩⟩

/-- Modelled from the spec: `graph.IsValidGraph`, the defensive check at
the end of `getTemplate` ("Make sure our code isn't buggy").  The built
graph is valid when every declared node was inserted exactly once and
each node's dependencies were inserted before it. -/
def isValidGraph (nodes : List (String × SNode)) (order : List SNode) : Bool :=
  (order.length == nodes.length) &&
  (nodes.all (fun p =>
    (order.filter (fun m => m.name == p.2.name)).length == 1)) &&
  (List.range order.length).all (fun i =>
    ((order.drop i).headD default).deps.all (fun d =>
      match assoc nodes d with
      | some nd => (order.take i).any (fun m => m.name == nd.name)
      | none => false))

/-- `getTemplate`: build the template for one sequence.  Starts the job
args at the declared sequence args, inserts every node by the
pass/insert loop, and records the final job args as `template.sets`. -/
def getTemplate (seq : SSequence) : Except GraphErr Template :=
  match insertLoop seq.nodes (seq.nodes.length + 1)
      (seq.nodes.map (fun p => p.2)) [] (getAllSequenceArgs seq) [] with
  | Except.error e => Except.error e
  | Except.ok (jobArgsFinal, order) =>
    if isValidGraph seq.nodes order then
      Except.ok ⟨seq.name, jobArgsFinal, order⟩
    else
      Except.error GraphErr.malformedGraph

/-! ## Grapher: subsequences, actual sets, and the build driver -/

/-- The `Eq` values of a conditional node that name existing sequences
(job-type values are skipped), in `Eq` iteration order. -/
def condBranches (allSequences : List (String × SSequence)) (node : SNode) :
    List String :=
  node.eq.foldl (fun l kv =>
    if (assoc allSequences kv.2).isSome then l ++ [kv.2] else l) []

/-- The subsequences one node references: its `NodeType` for a sequence
node, its sequence-naming `Eq` values for a conditional node. -/
def nodeSubseq (allSequences : List (String × SSequence)) (node : SNode) :
    List String :=
  if node.IsSequence then [node.nodeType.getD ""]
  else if node.IsConditional then condBranches allSequences node
  else []

/-- `getSubsequences`: map of node name to the list of subsequence names
it references.  Nodes referencing no subsequence get no entry. -/
def getSubsequences (allSequences : List (String × SSequence))
    (seq : SSequence) : List (String × List String) :=
  seq.nodes.foldl (fun acc p =>
    if (nodeSubseq allSequences p.2).isEmpty then acc
    else acc ++ [(p.1, nodeSubseq allSequences p.2)]) []

/-- All template `sets` args of a branch list, with multiplicity one per
branch (iterating the keys of the Go `template.sets` map is embedded as
`dedup`); branches without a template contribute nothing. -/
def occsOf (templates : List (String × Template)) (branches : List String) :
    List String :=
  branches.foldl (fun l s =>
    match assoc templates s with
    | some t => l ++ t.sets.dedup
    | none => l) []

/-- The `actualMap` filter of `getActualSets` for one node: keep an arg
when the number of branches that output it equals the number of
branches. -/
def actualOf (templates : List (String × Template))
    (branches : List String) : List String :=
  (occsOf templates branches).dedup.filter
    (fun a => (occsOf templates branches).count a == branches.length)

/-- `getActualSets`: per node, the job args set by every one of its
subsequences. -/
def getActualSets (templates : List (String × Template))
    (subsequences : List (String × List String)) :
    List (String × List String) :=
  subsequences.map (fun p => (p.1, actualOf templates p.2))

/-- `getMissingSets`: per node of `actualSets`, the args its spec `Sets`
declares that were not actually set.  The Go code assumes every node name
of `actualSets` appears in `nodes`; a missing node is skipped here. -/
def getMissingSets (nodes : List (String × SNode))
    (actualSets : List (String × List String)) :
    List (String × List String) :=
  actualSets.foldl (fun acc p =>
    match assoc nodes p.1 with
    | some nodeSpec =>
      let missing := (nodeSpec.sets.filter
          (fun s => !p.2.contains s.arg)).map (fun s => s.arg)
      if missing.isEmpty then acc else acc ++ [(p.1, missing)]
    | none => acc) []

/-- The two result maps the Grapher fills in while creating templates. -/
structure GrapherState where
  sequenceTemplates : List (String × Template)
  sequenceErrors : List (String × GraphErr)
deriving DecidableEq, Repr

/-- Record an error for a sequence (`o.sequenceErrors[sequenceName] = retErr`).
Prepending models Go map assignment: the newest entry wins on lookup. -/
def recordError (st : GrapherState) (name : String) (e : GraphErr) :
    GrapherState :=
  { st with sequenceErrors := (name, e) :: st.sequenceErrors }

/-- Record a template for a sequence
(`o.sequenceTemplates[sequenceName] = template`). -/
def recordTemplate (st : GrapherState) (name : String) (t : Template) :
    GrapherState :=
  { st with sequenceTemplates := (name, t) :: st.sequenceTemplates }

/-- The flattened list of subsequence names one sequence's build visits
(the iteration of `buildAllSubsequences` over the `getSubsequences` map). -/
def flatSubsequences (allSequences : List (String × SSequence))
    (seq : SSequence) : List String :=
  (getSubsequences allSequences seq).foldl (fun l p => l ++ p.2) []

/-- The missing-sets map `buildSequence` checks for one sequence. -/
def missingSetsOf (allSequences : List (String × SSequence))
    (st : GrapherState) (seq : SSequence) : List (String × List String) :=
  getMissingSets seq.nodes
    (getActualSets st.sequenceTemplates (getSubsequences allSequences seq))

/-- `buildAllSubsequences` parameterized by the function that builds one
sequence: build every subsequence in the flattened list, continuing past
failures and conjoining the results (`ok = ok && build`). -/
def buildManyOf
    (build : GrapherState → String → Option (GrapherState × Bool)) :
    GrapherState → List String → Option (GrapherState × Bool)
  | st, [] => some (st, true)
  | st, s :: rest =>
    match build st s with
    | none => none
    | some (st', b) =>
      match buildManyOf build st' rest with
      | none => none
      | some (st'', b') => some (st'', b && b')

/-- `buildSequence`: build one sequence, memoized on the two result maps.
Go's unbounded recursion through subsequences is embedded with fuel;
`none` is the out-of-fuel marker (Go would recurse forever there, which
the static checker's acyclicity pass rules out). -/
def buildSequence (allSequences : List (String × SSequence)) (fuel : Nat)
    (st : GrapherState) (sequenceName : String) :
    Option (GrapherState × Bool) :=
  match fuel with
  | 0 => none
  | Nat.succ fuel =>
    if (assoc st.sequenceTemplates sequenceName).isSome then some (st, true)
    else if (assoc st.sequenceErrors sequenceName).isSome then some (st, false)
    else
      match assoc allSequences sequenceName with
      | none =>
        some (recordError st sequenceName GraphErr.cannotFindDefinition, false)
      | some seq =>
        match buildManyOf (buildSequence allSequences fuel) st
            (flatSubsequences allSequences seq) with
        | none => none
        | some (st1, ok) =>
          if !ok then
            some (recordError st1 sequenceName GraphErr.failedSubsequences, false)
          else if !(missingSetsOf allSequences st1 seq).isEmpty then
            some (recordError st1 sequenceName
              (GraphErr.missingSets (missingSetsOf allSequences st1 seq)), false)
          else
            match getTemplate seq with
            | Except.error e => some (recordError st1 sequenceName e, false)
            | Except.ok temp => some (recordTemplate st1 sequenceName temp, true)

/-- `buildAllSubsequences` at a given fuel. -/
def buildMany (allSequences : List (String × SSequence)) (fuel : Nat) :
    GrapherState → List String → Option (GrapherState × Bool) :=
  buildManyOf (buildSequence allSequences fuel)

/-- `CreateTemplates`: build every sequence of `allSequences`, returning
the filled-in result maps and the conjunction of the per-sequence build
results. -/
def CreateTemplates (allSequences : List (String × SSequence)) (fuel : Nat) :
    Option (GrapherState × Bool) :=
  buildMany allSequences fuel ⟨[], []⟩ (allSequences.map (fun p => p.1))

/-! ## Job Runner: proto data model and the Chain -/

/-- `proto` job states. -/
inductive JobState where
  | PENDING
  | RUNNING
  | COMPLETE
  | FAIL
  | STOPPED
deriving DecidableEq, Repr

/-- `proto.Job`, the fields the traverser reads. -/
structure PJob where
  id : String
  name : String
  jobType : String
  state : JobState
  sequenceId : String
  sequenceRetryWait : String
deriving DecidableEq, Repr

/-- `proto.JobChain`: request id plus the jobs map (kept as a list). -/
structure JobChain where
  requestId : String
  jobs : List PJob
deriving DecidableEq, Repr

/-- `proto.SuspendedJobChain`: the chain plus the three try-counter maps. -/
structure SJC where
  requestId : String
  jobChain : JobChain
  sequenceTries : List (String × Int)
  totalJobTries : List (String × Int)
  latestRunJobTries : List (String × Int)
deriving DecidableEq, Repr

/-- `chain.Chain`: runtime wrapper of a JobChain with the three counter
maps (spec §3).  Counter maps are embedded as association lists. -/
structure Chain where
  jobChain : JobChain
  sequenceTries : List (String × Int)
  totalJobTries : List (String × Int)
  latestRunJobTries : List (String × Int)
deriving DecidableEq, Repr

/-- Read a counter map; absent keys read as 0 (Go zero value). -/
def counterGet (m : List (String × Int)) (k : String) : Int :=
  (assoc m k).getD 0

/-- Add `delta` at key `k` (map overwrite is modelled by prepending). -/
def counterAdd (m : List (String × Int)) (k : String) (delta : Int) :
    List (String × Int) :=
  (k, counterGet m k + delta) :: m

/-- `NewChain`: wrap a proto JobChain and the given counter maps. -/
def NewChain (jc : JobChain) (seqTries totalTries latestTries :
    List (String × Int)) : Chain :=
  ⟨jc, seqTries, totalTries, latestTries⟩

/-- Find a chain's job by id. -/
def Chain.findJob (c : Chain) (jobId : String) : Option PJob :=
  c.jobChain.jobs.find? (fun j => j.id == jobId)

/-- Modelled from the spec: `Chain.JobState` — the job's current state. -/
def Chain.jobStateOf (c : Chain) (jobId : String) : Option JobState :=
  (c.findJob jobId).map (fun j => j.state)

/-- Modelled from the spec: `Chain.SetJobState` — set one job's state. -/
def SetJobState (c : Chain) (jobId : String) (s : JobState) : Chain :=
  let newJobs := c.jobChain.jobs.map
    (fun j => if j.id == jobId then { j with state := s } else j)
  { c with jobChain := { c.jobChain with jobs := newJobs } }

/-- Modelled from the spec: `Chain.IncrementJobTries` — add `delta` to the
job's try counters, both the total count and the latest-run count
(`JobTries(id) → (latestRun, total)`). -/
def IncrementJobTries (c : Chain) (jobId : String) (delta : Int) : Chain :=
  { c with
    totalJobTries := counterAdd c.totalJobTries jobId delta,
    latestRunJobTries := counterAdd c.latestRunJobTries jobId delta }

/-- `Chain.IsSequenceStartJob`: per the comment in `runJobs`, this
"currently means sequenceId == job.Id". -/
def IsSequenceStartJob (c : Chain) (jobId : String) : Bool :=
  match c.findJob jobId with
  | some j => j.sequenceId == jobId
  | none => false

/-- Modelled from the spec: `Chain.IncrementSequenceTries` — add `delta`
to the sequence-try counter of the job's owning sequence
(`SequenceTries[seqStartId]`, looked up via the job's `SequenceId`). -/
def IncrementSequenceTries (c : Chain) (jobId : String) (delta : Int) : Chain :=
  match c.findJob jobId with
  | some j => { c with sequenceTries := counterAdd c.sequenceTries j.sequenceId delta }
  | none => c

/-- Modelled from the spec: the total-tries half of `Chain.JobTries`. -/
def totalTriesOf (c : Chain) (jobId : String) : Int :=
  counterGet c.totalJobTries jobId

/-- Modelled from the spec: the latest-run half of `Chain.JobTries`. -/
def latestTriesOf (c : Chain) (jobId : String) : Int :=
  counterGet c.latestRunJobTries jobId

/-- Read the sequence-tries counter at a sequence-start job id. -/
def seqTriesAt (c : Chain) (seqStartId : String) : Int :=
  counterGet c.sequenceTries seqStartId

/-- The body of `MakeFromSJC`'s resume loop for one job: change a STOPPED
job to PENDING, decrement its try counters, and for a sequence-start job
also decrement the sequence-try counter. -/
def resumeStep (c : Chain) (job : PJob) : Chain :=
  if job.state != JobState.STOPPED then c
  else
    let c := IncrementJobTries c job.id (-1)
    let c := SetJobState c job.id JobState.PENDING
    if IsSequenceStartJob c job.id then IncrementSequenceTries c job.id (-1)
    else c

/-- `traverserFactory.MakeFromSJC`, the chain-rewriting part: wrap the
suspended job chain with its saved counters and resume every STOPPED job. -/
def MakeFromSJC (sjc : SJC) : Chain :=
  let chain := NewChain sjc.jobChain sjc.sequenceTries sjc.totalJobTries
    sjc.latestRunJobTries
  sjc.jobChain.jobs.foldl resumeStep chain

/-! ## Traverser: Stop/shutdown state machine -/

/-- Which reaper variant the traverser currently holds. -/
inductive ReaperKind where
  | running
  | stoppedReaper
  | suspendedReaper
deriving DecidableEq, Repr

/-- The traverser state guarded by `stopMux`, plus the channels whose
closing Stop/shutdown own. -/
structure TravState where
  stopped : Bool
  suspended : Bool
  stopChanClosed : Bool
  doneChanClosed : Bool
  reaper : ReaperKind
deriving DecidableEq, Repr

/-- A freshly made traverser: running, nothing closed. -/
def newTravState : TravState :=
  ⟨false, false, false, false, ReaperKind.running⟩

/-- What `Stop` returns: nil, `ErrShuttingDown`, or the wrapped
stop-running-jobs error. -/
inductive StopOutcome where
  | nil
  | errShuttingDown
  | errStopFailed
deriving DecidableEq, Repr

/-- `traverser.Stop` under `stopMux`: no-op returning nil when already
stopped; `ErrShuttingDown` when already suspended; otherwise close
`stopChan`, mark stopped, swap in the stopped reaper, stop running jobs
(`jobsStopErr` abstracts whether `stopRunningJobs` failed) and close
`doneChan`. -/
def stopTraverser (t : TravState) (jobsStopErr : Bool) :
    TravState × StopOutcome :=
  if t.stopped then (t, StopOutcome.nil)
  else if t.suspended then (t, StopOutcome.errShuttingDown)
  else
    ({ t with
        stopped := true
        stopChanClosed := true
        doneChanClosed := true
        reaper := ReaperKind.stoppedReaper },
      if jobsStopErr then StopOutcome.errStopFailed else StopOutcome.nil)

/-- `traverser.shutdown` under `stopMux`: no-op when already stopped or
suspended; otherwise close `stopChan`, mark suspended, swap in the
suspended reaper and close `doneChan`. -/
def shutdownTraverser (t : TravState) : TravState :=
  if t.stopped || t.suspended then t
  else
    { t with
        suspended := true
        stopChanClosed := true
        doneChanClosed := true
        reaper := ReaperKind.suspendedReaper }

/-! ## Traverser: the worker goroutine of runJobs, and sendJL -/

/-- `proto.JobLog`, the fields `sendJL` fills. -/
structure JobLog where
  requestId : String
  jobId : String
  name : String
  jobType : String
  tryCount : Int
  startedAt : Int
  finishedAt : Int
  state : JobState
  exitCode : Int
  errMsg : String
deriving DecidableEq, Repr

/-- Number of times to attempt sending a job log to the RM. -/
def jobLogTries : Nat := 3

/-- Milliseconds to wait between attempts to send a job log to the RM. -/
def jobLogRetryWait : Nat := 500

/-- Modelled from the spec: `retry.Do(tries, wait, f, nil)` — bounded
retry with fixed wait.  `accepts n` says whether the n-th call (0-based)
succeeds; returns whether a call succeeded and how many calls were made. -/
def retryDo : Nat → (Nat → Bool) → Nat → Bool × Nat
  | 0, _, made => (false, made)
  | Nat.succ rest, accepts, made =>
    if accepts made then (true, made + 1) else retryDo rest accepts (made + 1)

/-- The observable result of `sendJL`: the job log it built and how the
bounded retry of `rmc.CreateJL` went. -/
structure SendJLResult where
  jl : JobLog
  attempts : Nat
  delivered : Bool
deriving DecidableEq, Repr

/-- `traverser.sendJL`: build a JobLog for a job that never ran (zero
start/finish times, exit 1, try = the job's total tries) and send it to
the Request Manager with bounded retry. -/
def sendJL (c : Chain) (job : PJob) (errMsg : String)
    (rmAccepts : Nat → Bool) : SendJLResult :=
  let jl : JobLog :=
    { requestId := c.jobChain.requestId
      jobId := job.id
      name := job.name
      jobType := job.jobType
      tryCount := totalTriesOf c job.id
      startedAt := 0
      finishedAt := 0
      state := job.state
      exitCode := 1
      errMsg := errMsg }
  let r := retryDo jobLogTries rmAccepts 0
  ⟨jl, r.2, r.1⟩

/-- The abstract job runner the factory makes: what `runner.Run` reports. -/
structure RunnerModel where
  finalState : JobState
  tries : Int
deriving DecidableEq, Repr

/-- The observable effects of one worker goroutine of `runJobs`. -/
structure WorkerResult where
  chain : Chain
  runnerRepoSet : Bool
  setRunningCalled : Bool
  doneJob : PJob
  jobLog : Option SendJLResult
deriving Repr

/-- The body of one worker goroutine launched by `runJobs` for `job`,
run to completion with `stopChan` open: the sequence-try increment for a
sequence-start job, then either the factory-error path (mark the job
FAIL, send a JobLog, never touch the runner repo or the chain's job
state) or the normal path (register the runner, set the job RUNNING, run
it, add its tries).  In both paths the finished job goes to
`doneJobChan` (the `doneJob` field). -/
def runJobOnce (c : Chain) (job : PJob)
    (factory : Except String RunnerModel) (rmAccepts : Nat → Bool) :
    WorkerResult :=
  let c := if IsSequenceStartJob c job.id then
    IncrementSequenceTries c job.id 1 else c
  match factory with
  | Except.error msg =>
    let job := { job with state := JobState.FAIL }
    let res := sendJL c job ("problem creating job runner: " ++ msg) rmAccepts
    ⟨c, false, false, job, some res⟩
  | Except.ok r =>
    let c := SetJobState c job.id JobState.RUNNING
    let c := IncrementJobTries c job.id r.tries
    let job := { job with state := r.finalState }
    ⟨c, true, true, job, none⟩

/-! ## Spec post-processing (`ProcessSpecs`) -/

/-- Modelled from the spec: the node part of `ProcessSpecs` — set `Name`
from the map key, default `Given := Expected` in each `Args` entry,
default `As := Arg` in each `Sets` entry, and default
`RetryWait := "0s"` when it is empty and `Retry > 0`. -/
def processNode (key : String) (nd : SNode) : SNode :=
  { nd with
    name := key
    args := nd.args.map (fun a => { a with given := some (a.given.getD a.expected) })
    sets := nd.sets.map (fun s => { s with asName := some (s.asName.getD s.arg) })
    retryWait := if nd.retryWait = "" ∧ 0 < nd.retry then "0s" else nd.retryWait }

/-- Modelled from the spec: the sequence part of `ProcessSpecs` — set
`Name` from the map key and process every node. -/
def processSequence (key : String) (sq : SSequence) : SSequence :=
  { sq with
    name := key
    nodes := sq.nodes.map (fun p => (p.1, processNode p.1 p.2)) }

/-- Modelled from the spec: `ProcessSpecs` — fill the derived defaults of
every sequence, leaving everything else unchanged. -/
def ProcessSpecs (specs : List (String × SSequence)) :
    List (String × SSequence) :=
  specs.map (fun p => (p.1, processSequence p.1 p.2))

/-! ## Lemmas: job-arg sets -/

theorem mem_insertArg (l : List String) (a b : String) :
    a ∈ insertArg l b ↔ a ∈ l ∨ a = b := by
  unfold insertArg
  by_cases h : l.contains b
  · simp only [h, if_pos]
    constructor
    · exact Or.inl
    · rintro (ha | rfl)
      · exact ha
      · simpa using h
  · simp only [h]
    simp [List.mem_append]

theorem mem_addNodeSets (nd : SNode) :
    ∀ (ja : List String) (a : String),
      a ∈ addNodeSets ja nd ↔
        a ∈ ja ∨ ∃ s ∈ nd.sets, s.asName.getD "" = a := by
  unfold addNodeSets
  generalize nd.sets = l
  induction l with
  | nil => intro ja a; simp
  | cons s rest ih =>
    intro ja a
    simp only [List.foldl_cons]
    rw [ih]
    rw [mem_insertArg]
    constructor
    · rintro ((h | h) | ⟨s', hs', h⟩)
      · exact Or.inl h
      · exact Or.inr ⟨s, List.mem_cons_self _ _, h.symm⟩
      · exact Or.inr ⟨s', List.mem_cons_of_mem _ hs', h⟩
    · rintro (h | ⟨s', hs', h⟩)
      · exact Or.inl (Or.inl h)
      · rcases List.mem_cons.mp hs' with rfl | hs'
        · exact Or.inl (Or.inr h.symm)
        · exact Or.inr ⟨s', hs', h⟩

theorem argsAfter_append (init : List String) (l1 l2 : List SNode) :
    argsAfter init (l1 ++ l2) = argsAfter (argsAfter init l1) l2 := by
  unfold argsAfter
  exact List.foldl_append _ _ _ _

theorem mem_argsAfter (l : List SNode) :
    ∀ (init : List String) (a : String),
      a ∈ argsAfter init l ↔
        a ∈ init ∨ ∃ nd ∈ l, ∃ s ∈ nd.sets, s.asName.getD "" = a := by
  induction l with
  | nil => intro init a; simp [argsAfter]
  | cons n rest ih =>
    intro init a
    show a ∈ argsAfter (addNodeSets init n) rest ↔ _
    rw [ih, mem_addNodeSets]
    constructor
    · rintro ((h | ⟨s, hs, h⟩) | ⟨nd, hnd, hs⟩)
      · exact Or.inl h
      · exact Or.inr ⟨n, List.mem_cons_self _ _, s, hs, h⟩
      · exact Or.inr ⟨nd, List.mem_cons_of_mem _ hnd, hs⟩
    · rintro (h | ⟨nd, hnd, hs⟩)
      · exact Or.inl (Or.inl h)
      · rcases List.mem_cons.mp hnd with rfl | hnd
        · exact Or.inl (Or.inr hs)
        · exact Or.inr ⟨nd, hnd, hs⟩

/-! ## Lemmas: the insertion loop -/

/-- Every node of `l` passed the missing-args check against the job args
live at its insertion point (the initial args extended by the `Sets` of
the previously inserted nodes). -/
def checksOk (init : List String) (l : List SNode) : Prop :=
  ∀ i (h : i < l.length),
    getMissingArgs (l.get ⟨i, h⟩) (argsAfter init (l.take i)) = Except.ok []

theorem checksOk_nil (init : List String) : checksOk init [] := by
  intro i h
  simp at h

theorem checksOk_cons {init : List String} {n : SNode} {l : List SNode}
    (hn : getMissingArgs n init = Except.ok [])
    (hl : checksOk (addNodeSets init n) l) : checksOk init (n :: l) := by
  intro i h
  match i with
  | 0 => simpa [argsAfter] using hn
  | Nat.succ j =>
    have hj : j < l.length := by simpa using h
    have := hl j hj
    simpa [argsAfter, List.foldl_cons] using this

theorem checksOk_append {init : List String} {l1 l2 : List SNode}
    (h1 : checksOk init l1) (h2 : checksOk (argsAfter init l1) l2) :
    checksOk init (l1 ++ l2) := by
  intro i h
  by_cases hi : i < l1.length
  · have := h1 i hi
    have e1 : (l1 ++ l2).get ⟨i, h⟩ = l1.get ⟨i, hi⟩ := by
      simp only [List.get_eq_getElem]
      exact List.getElem_append_left hi
    have e2 : (l1 ++ l2).take i = l1.take i := by
      rw [List.take_append_eq_append_take, Nat.sub_eq_zero_of_le (Nat.le_of_lt hi),
        List.take_zero, List.append_nil]
    rw [e1, e2]
    exact this
  · have hlen : i < l1.length + l2.length := by simpa using h
    have hge : l1.length ≤ i := Nat.le_of_not_lt hi
    have hj : i - l1.length < l2.length := by omega
    have := h2 (i - l1.length) hj
    have e1 : (l1 ++ l2).get ⟨i, h⟩ = l2.get ⟨i - l1.length, hj⟩ := by
      simp only [List.get_eq_getElem]
      exact List.getElem_append_right hge
    have e2 : (l1 ++ l2).take i = l1 ++ l2.take (i - l1.length) := by
      rw [List.take_append_eq_append_take, List.take_of_length_le hge]
    rw [e1, e2, argsAfter_append]
    exact this

/-- What a successful pass guarantees: the job args grew by exactly the
inserted nodes' `Sets`, the worklist splits into remaining plus inserted,
the added-names list grew by the inserted names, and every inserted node
passed the missing-args check at its insertion point. -/
theorem passOnce_spec (nodes : List (String × SNode)) :
    ∀ (toAdd : List SNode) (added jobArgs : List String)
      (rem : List SNode) (added' jobArgs' : List String) (ins : List SNode),
      passOnce nodes toAdd added jobArgs =
        Except.ok (rem, added', jobArgs', ins) →
      jobArgs' = argsAfter jobArgs ins ∧
      added' = added ++ ins.map (fun c => c.name) ∧
      toAdd.Perm (rem ++ ins) ∧
      checksOk jobArgs ins := by
  intro toAdd
  induction toAdd with
  | nil =>
    intro added jobArgs rem added' jobArgs' ins h
    simp [passOnce] at h
    obtain ⟨h1, h2, h3, h4⟩ := h
    subst h1; subst h2; subst h3; subst h4
    exact ⟨rfl, by simp, List.Perm.refl _, checksOk_nil _⟩
  | cons n rest ih =>
    intro added jobArgs rem added' jobArgs' ins h
    simp only [passOnce] at h
    by_cases hdep : dependenciesSatisfied added n.deps nodes
    · simp only [hdep, if_pos] at h
      cases hma : getMissingArgs n jobArgs with
      | error e => rw [hma] at h; exact absurd h (by simp)
      | ok missing =>
        rw [hma] at h
        by_cases hm : missing.isEmpty
        · simp only [hm, if_pos] at h
          cases hrec : passOnce nodes rest (added ++ [n.name])
              (addNodeSets jobArgs n) with
          | error e => rw [hrec] at h; exact absurd h (by simp)
          | ok q =>
            obtain ⟨rem1, added1, jobArgs1, ins1⟩ := q
            rw [hrec] at h
            injection h with h'
            have e1 : rem1 = rem := congrArg Prod.fst h'
            have e2 : added1 = added' := congrArg (fun t => t.2.1) h'
            have e3 : jobArgs1 = jobArgs' := congrArg (fun t => t.2.2.1) h'
            have e4 : n :: ins1 = ins := congrArg (fun t => t.2.2.2) h'
            obtain ⟨g1, g2, g3, g4⟩ := ih _ _ rem1 added1 jobArgs1 ins1 hrec
            subst e1; subst e2; subst e3; subst e4
            have hmiss : missing = [] := List.isEmpty_iff.mp hm
            subst hmiss
            refine ⟨?_, ?_, ?_, ?_⟩
            · rw [g1]; rfl
            · rw [g2]; simp
            · exact (List.Perm.cons n g3).trans List.perm_middle.symm
            · exact checksOk_cons hma g4
        · simp only [hm, if_neg, if_false] at h
          exact absurd h (by simp)
    · simp only [hdep, if_neg, if_false] at h
      cases hrec : passOnce nodes rest added jobArgs with
      | error e => rw [hrec] at h; exact absurd h (by simp)
      | ok q =>
        obtain ⟨rem1, added1, jobArgs1, ins1⟩ := q
        rw [hrec] at h
        injection h with h'
        have e1 : n :: rem1 = rem := congrArg Prod.fst h'
        have e2 : added1 = added' := congrArg (fun t => t.2.1) h'
        have e3 : jobArgs1 = jobArgs' := congrArg (fun t => t.2.2.1) h'
        have e4 : ins1 = ins := congrArg (fun t => t.2.2.2) h'
        obtain ⟨g1, g2, g3, g4⟩ := ih _ _ rem1 added1 jobArgs1 ins1 hrec
        subst e1; subst e2; subst e3; subst e4
        refine ⟨g1, g2, ?_, g4⟩
        simpa using List.Perm.cons n g3

/-- A missing-args error raised inside a pass names a node of the
worklist and carries exactly the nonempty missing list `getMissingArgs`
computed against the job args live at that node's insertion point. -/
theorem passOnce_error_missing (nodes : List (String × SNode)) :
    ∀ (toAdd : List SNode) (added jobArgs : List String)
      (nname : String) (ms : List String),
      passOnce nodes toAdd added jobArgs =
        Except.error (GraphErr.missingArgs nname ms) →
      ms ≠ [] ∧ ∃ nd pre, nd.name = nname ∧
        getMissingArgs nd (argsAfter jobArgs pre) = Except.ok ms ∧
        checksOk jobArgs pre := by
  intro toAdd
  induction toAdd with
  | nil =>
    intro added jobArgs nname ms h
    simp [passOnce] at h
  | cons n rest ih =>
    intro added jobArgs nname ms h
    simp only [passOnce] at h
    by_cases hdep : dependenciesSatisfied added n.deps nodes
    · simp only [hdep, if_pos] at h
      cases hma : getMissingArgs n jobArgs with
      | error e =>
        rw [hma] at h
        injection h with h'
        cases h'
        cases hma2 : n.each.any (fun e => e != "" && (e.splitOn ":").length != 2) with
        | true => simp [getMissingArgs, hma2] at hma
        | false => simp [getMissingArgs, hma2] at hma
      | ok missing =>
        rw [hma] at h
        by_cases hm : missing.isEmpty
        · simp only [hm, if_pos] at h
          cases hrec : passOnce nodes rest (added ++ [n.name])
              (addNodeSets jobArgs n) with
          | error e =>
            rw [hrec] at h
            injection h with h'
            subst h'
            have hmiss : missing = [] := List.isEmpty_iff.mp hm
            subst hmiss
            obtain ⟨hne, nd, pre, hname, hmm, hchk⟩ := ih _ _ _ _ hrec
            refine ⟨hne, nd, n :: pre, hname, ?_, checksOk_cons hma hchk⟩
            simpa [argsAfter, List.foldl_cons] using hmm
          | ok q => rw [hrec] at h; obtain ⟨_, _, _, _⟩ := q; exact absurd h (by simp)
        · simp only [hm, if_neg, if_false] at h
          injection h with h'
          have e1 : n.name = nname := by
            have := congrArg (fun g => match g with
              | GraphErr.missingArgs s _ => s
              | _ => "") h'
            simpa using this
          have e2 : missing = ms := by
            have := congrArg (fun g => match g with
              | GraphErr.missingArgs _ m => m
              | _ => []) h'
            simpa using this
          subst e2
          refine ⟨fun hc => hm (by simp [hc]), n, [], e1, ?_, checksOk_nil _⟩
          simpa [argsAfter] using hma
    · simp only [hdep, if_neg, if_false] at h
      cases hrec : passOnce nodes rest added jobArgs with
      | error e =>
        rw [hrec] at h
        injection h with h'
        subst h'
        exact ih _ _ _ _ hrec
      | ok q => rw [hrec] at h; obtain ⟨_, _, _, _⟩ := q; exact absurd h (by simp)

/-- What a successful run of the insertion loop guarantees: the final
order extends the accumulator by a permutation of the worklist, the
final job args are the initial ones extended by every inserted node's
`Sets`, and every node passed the missing-args check at its insertion
point. -/
theorem insertLoop_ok (nodes : List (String × SNode)) :
    ∀ (N : Nat) (toAdd : List SNode), toAdd.length ≤ N →
      ∀ (added jobArgs : List String) (order : List SNode)
        (jaF : List String) (orderF : List SNode),
        insertLoop nodes N toAdd added jobArgs order =
          Except.ok (jaF, orderF) →
        ∃ suffix, orderF = order ++ suffix ∧ toAdd.Perm suffix ∧
          jaF = argsAfter jobArgs suffix ∧ checksOk jobArgs suffix := by
  intro N
  induction N with
  | zero =>
    intro toAdd hlen added jobArgs order jaF orderF h
    have hnil : toAdd = [] := List.length_eq_zero.mp (Nat.le_zero.mp hlen)
    subst hnil
    rw [insertLoop] at h
    simp only [List.isEmpty_nil, if_pos] at h
    injection h with h'
    have e1 : jobArgs = jaF := congrArg Prod.fst h'
    have e2 : order = orderF := congrArg Prod.snd h'
    subst e1; subst e2
    exact ⟨[], by simp, List.Perm.refl _, rfl, checksOk_nil _⟩
  | succ N ih =>
    intro toAdd hlen added jobArgs order jaF orderF h
    rw [insertLoop] at h
    by_cases he : toAdd.isEmpty
    · simp only [he, if_pos] at h
      injection h with h'
      have e1 : jobArgs = jaF := congrArg Prod.fst h'
      have e2 : order = orderF := congrArg Prod.snd h'
      subst e1; subst e2
      have hnil : toAdd = [] := List.isEmpty_iff.mp he
      subst hnil
      exact ⟨[], by simp, List.Perm.refl _, rfl, checksOk_nil _⟩
    · simp only [he, if_neg, if_false, Bool.false_eq_true] at h
      split at h
      · exact absurd h (by simp)
      · rename_i rem added' jobArgs' inserted heq
        split at h
        · exact absurd h (by simp)
        · rename_i hi
          have hsplit := passOnce_length nodes toAdd added jobArgs rem added'
            jobArgs' inserted heq
          obtain ⟨g1, g2, g3, g4⟩ := passOnce_spec nodes toAdd added jobArgs
            rem added' jobArgs' inserted heq
          have hinsne : inserted.length ≠ 0 := by
            intro h0
            exact hi (List.isEmpty_iff_length_eq_zero.mpr h0)
          have hrem : rem.length ≤ N := by
            have := Nat.le_of_lt_succ (Nat.lt_of_lt_of_le
              (by omega : rem.length < toAdd.length) hlen)
            exact this
          obtain ⟨suffix2, k1, k2, k3, k4⟩ := ih rem hrem added' jobArgs'
            (order ++ inserted) jaF orderF h
          refine ⟨inserted ++ suffix2, ?_, ?_, ?_, ?_⟩
          · rw [k1, List.append_assoc]
          · have h1 : toAdd.Perm (rem ++ inserted) := g3
            have h2 : (rem ++ inserted).Perm (suffix2 ++ inserted) :=
              k2.append_right inserted
            have h3 : (suffix2 ++ inserted).Perm (inserted ++ suffix2) :=
              List.perm_append_comm
            exact (h1.trans h2).trans h3
          · rw [k3, g1, ← argsAfter_append]
          · exact checksOk_append g4 (g1 ▸ k4)

/-- A missing-args error escaping the insertion loop names nonempty
missing args computed by `getMissingArgs` against the initial job args
extended by some prefix of inserted nodes that all passed their own
checks. -/
theorem insertLoop_error_missing (nodes : List (String × SNode)) :
    ∀ (N : Nat) (toAdd : List SNode), toAdd.length ≤ N →
      ∀ (added jobArgs : List String) (order : List SNode)
        (nname : String) (ms : List String),
        insertLoop nodes N toAdd added jobArgs order =
          Except.error (GraphErr.missingArgs nname ms) →
        ms ≠ [] ∧ ∃ nd pre, nd.name = nname ∧
          getMissingArgs nd (argsAfter jobArgs pre) = Except.ok ms ∧
          checksOk jobArgs pre := by
  intro N
  induction N with
  | zero =>
    intro toAdd hlen added jobArgs order nname ms h
    have hnil : toAdd = [] := List.length_eq_zero.mp (Nat.le_zero.mp hlen)
    subst hnil
    rw [insertLoop] at h
    simp at h
  | succ N ih =>
    intro toAdd hlen added jobArgs order nname ms h
    rw [insertLoop] at h
    by_cases he : toAdd.isEmpty
    · simp [he] at h
    · simp only [he, if_neg, if_false, Bool.false_eq_true] at h
      split at h
      · rename_i e heq
        injection h with h'
        subst h'
        exact passOnce_error_missing nodes toAdd added jobArgs nname ms heq
      · rename_i rem added' jobArgs' inserted heq
        split at h
        · exact absurd h (by simp)
        · rename_i hi
          have hsplit := passOnce_length nodes toAdd added jobArgs rem added'
            jobArgs' inserted heq
          obtain ⟨g1, g2, g3, g4⟩ := passOnce_spec nodes toAdd added jobArgs
            rem added' jobArgs' inserted heq
          have hinsne : inserted.length ≠ 0 := by
            intro h0
            exact hi (List.isEmpty_iff_length_eq_zero.mpr h0)
          have hrem : rem.length ≤ N := by omega
          obtain ⟨hne, nd, pre, k1, k2, k3⟩ := ih rem hrem added' jobArgs'
            (order ++ inserted) nname ms h
          refine ⟨hne, nd, inserted ++ pre, k1, ?_, checksOk_append g4 (g1 ▸ k3)⟩
          rw [argsAfter_append, ← g1]
          exact k2

/-! ## Lemmas: association lists -/

theorem assoc_some {α : Type} {l : List (String × α)} {k : String} {v : α}
    (h : assoc l k = some v) : (k, v) ∈ l := by
  unfold assoc at h
  cases hf : l.find? (fun p => p.1 == k) with
  | none => rw [hf] at h; exact absurd h (by simp)
  | some p =>
    rw [hf] at h
    injection h with h'
    have hp := List.find?_some hf
    have hmem := List.mem_of_find?_eq_some hf
    have : p.1 = k := by simpa using hp
    have : p = (k, v) := by
      cases p
      simp_all
    rw [← this]
    exact hmem

theorem assoc_of_mem_nodup {α : Type} {l : List (String × α)} {k : String}
    {v : α} (hnodup : (l.map Prod.fst).Nodup) (hmem : (k, v) ∈ l) :
    assoc l k = some v := by
  induction l with
  | nil => simp at hmem
  | cons p rest ih =>
    rcases List.mem_cons.mp hmem with rfl | hmem'
    · unfold assoc
      simp
    · have hk : p.1 ≠ k := by
        intro hk
        have : k ∈ rest.map Prod.fst :=
          List.mem_map.mpr ⟨(k, v), hmem', rfl⟩
        rw [List.map_cons, List.nodup_cons] at hnodup
        exact hnodup.1 (hk ▸ this)
      have hnodup' : (rest.map Prod.fst).Nodup := by
        rw [List.map_cons, List.nodup_cons] at hnodup
        exact hnodup.2
      have ihr := ih hnodup' hmem'
      unfold assoc at ihr ⊢
      rw [List.find?_cons]
      have : (p.1 == k) = false := by simpa using hk
      rw [this]
      exact ihr

/-! ## Lemmas: cycles make the insertion loop fail -/

/-- Nodes whose names lie on a dependency cycle are never inserted by a
pass: they stay in the remaining list, and no cycle name enters the
added list. -/
theorem passOnce_cycle (nodes : List (String × SNode)) (C : List String)
    (hC : ∀ c ∈ C, ∃ nd2, assoc nodes c = some nd2 ∧ nd2.name = c) :
    ∀ (toAdd : List SNode) (added jobArgs : List String)
      (rem : List SNode) (added' jobArgs' : List String) (ins : List SNode),
      passOnce nodes toAdd added jobArgs =
        Except.ok (rem, added', jobArgs', ins) →
      (∀ nd ∈ toAdd, nd.name ∈ C → ∃ d, d ∈ nd.deps ∧ d ∈ C) →
      (∀ c ∈ C, c ∉ added) →
      (∀ nd ∈ toAdd, nd.name ∈ C → nd ∈ rem) ∧ (∀ c ∈ C, c ∉ added') := by
  intro toAdd
  induction toAdd with
  | nil =>
    intro added jobArgs rem added' jobArgs' ins h hdeps hadd
    simp [passOnce] at h
    obtain ⟨h1, h2, h3, h4⟩ := h
    subst h1; subst h2
    exact ⟨by simp, hadd⟩
  | cons n rest ih =>
    intro added jobArgs rem added' jobArgs' ins h hdeps hadd
    simp only [passOnce] at h
    by_cases hdep : dependenciesSatisfied added n.deps nodes
    · by_cases hnC : n.name ∈ C
      · exfalso
        obtain ⟨d, hd, hdC⟩ := hdeps n (List.mem_cons_self _ _) hnC
        obtain ⟨nd2, hnd2, hnd2name⟩ := hC d hdC
        unfold dependenciesSatisfied at hdep
        rw [List.all_eq_true] at hdep
        have := hdep d hd
        rw [hnd2] at this
        simp only [hnd2name] at this
        have : d ∈ added := by simpa using this
        exact hadd d hdC this
      · simp only [hdep, if_pos] at h
        cases hma : getMissingArgs n jobArgs with
        | error e => rw [hma] at h; exact absurd h (by simp)
        | ok missing =>
          rw [hma] at h
          by_cases hm : missing.isEmpty
          · simp only [hm, if_pos] at h
            cases hrec : passOnce nodes rest (added ++ [n.name])
                (addNodeSets jobArgs n) with
            | error e => rw [hrec] at h; exact absurd h (by simp)
            | ok q =>
              obtain ⟨rem1, added1, jobArgs1, ins1⟩ := q
              rw [hrec] at h
              injection h with h'
              have e1 : rem1 = rem := congrArg Prod.fst h'
              have e2 : added1 = added' := congrArg (fun t => t.2.1) h'
              have hadd1 : ∀ c ∈ C, c ∉ added ++ [n.name] := by
                intro c hc hmem
                rcases List.mem_append.mp hmem with hmem | hmem
                · exact hadd c hc hmem
                · rcases List.mem_singleton.mp hmem with rfl
                  exact hnC hc
              obtain ⟨k1, k2⟩ := ih _ _ rem1 added1 jobArgs1 ins1 hrec
                (fun nd hnd => hdeps nd (List.mem_cons_of_mem _ hnd)) hadd1
              subst e1; subst e2
              constructor
              · intro nd hnd hndC
                rcases List.mem_cons.mp hnd with rfl | hnd
                · exact absurd hndC hnC
                · exact k1 nd hnd hndC
              · exact k2
          · simp only [hm, if_neg, if_false] at h
            exact absurd h (by simp)
    · simp only [hdep, if_neg, if_false] at h
      cases hrec : passOnce nodes rest added jobArgs with
      | error e => rw [hrec] at h; exact absurd h (by simp)
      | ok q =>
        obtain ⟨rem1, added1, jobArgs1, ins1⟩ := q
        rw [hrec] at h
        injection h with h'
        have e1 : n :: rem1 = rem := congrArg Prod.fst h'
        have e2 : added1 = added' := congrArg (fun t => t.2.1) h'
        obtain ⟨k1, k2⟩ := ih _ _ rem1 added1 jobArgs1 ins1 hrec
          (fun nd hnd => hdeps nd (List.mem_cons_of_mem _ hnd)) hadd
        subst e1; subst e2
        constructor
        · intro nd hnd hndC
          rcases List.mem_cons.mp hnd with rfl | hnd
          · exact List.mem_cons_self _ _
          · exact List.mem_cons_of_mem _ (k1 nd hnd hndC)
        · exact k2

/-- If some name on a dependency cycle still has a node in the worklist,
the insertion loop can only end in an error. -/
theorem insertLoop_cycle (nodes : List (String × SNode)) (C : List String)
    (hC : ∀ c ∈ C, ∃ nd2, assoc nodes c = some nd2 ∧ nd2.name = c) :
    ∀ (N : Nat) (toAdd : List SNode), toAdd.length ≤ N →
      ∀ (added jobArgs : List String) (order : List SNode),
        (∀ nd ∈ toAdd, nd.name ∈ C → ∃ d, d ∈ nd.deps ∧ d ∈ C) →
        (∃ c ∈ C, ∃ nd ∈ toAdd, nd.name = c) →
        (∀ c ∈ C, c ∉ added) →
        ∃ e, insertLoop nodes N toAdd added jobArgs order = Except.error e := by
  intro N
  induction N with
  | zero =>
    intro toAdd hlen added jobArgs order hdeps hpresent hadd
    have hnil : toAdd = [] := List.length_eq_zero.mp (Nat.le_zero.mp hlen)
    subst hnil
    obtain ⟨c, hc, nd, hnd, _⟩ := hpresent
    simp at hnd
  | succ N ih =>
    intro toAdd hlen added jobArgs order hdeps hpresent hadd
    rw [insertLoop]
    have hne : ¬ toAdd.isEmpty := by
      obtain ⟨c, hc, nd, hnd, _⟩ := hpresent
      intro hempty
      rw [List.isEmpty_iff.mp hempty] at hnd
      simp at hnd
    simp only [hne, if_neg, if_false, Bool.false_eq_true]
    split
    · exact ⟨_, rfl⟩
    · rename_i rem added' jobArgs' inserted heq
      split
      · exact ⟨_, rfl⟩
      · rename_i hi
        have hsplit := passOnce_length nodes toAdd added jobArgs rem added'
          jobArgs' inserted heq
        have hinsne : inserted.length ≠ 0 := by
          intro h0
          exact hi (List.isEmpty_iff_length_eq_zero.mpr h0)
        have hrem : rem.length ≤ N := by omega
        obtain ⟨k1, k2⟩ := passOnce_cycle nodes C hC toAdd added jobArgs rem
          added' jobArgs' inserted heq hdeps hadd
        obtain ⟨g1, g2, g3, g4⟩ := passOnce_spec nodes toAdd added jobArgs rem
          added' jobArgs' inserted heq
        have hsub : ∀ nd ∈ rem, nd ∈ toAdd := by
          intro nd hnd
          exact g3.symm.mem_iff.mp (List.mem_append.mpr (Or.inl hnd))
        refine ih rem hrem added' jobArgs' (order ++ inserted)
          (fun nd hnd => hdeps nd (hsub nd hnd)) ?_ k2
        obtain ⟨c, hc, nd, hnd, hname⟩ := hpresent
        exact ⟨c, hc, nd, k1 nd hnd (hname ▸ hc), hname⟩

/-! ## Lemmas: getTemplate -/

/-- What a successfully built template satisfies: it is named after the
sequence, its node order is a permutation of the sequence's nodes, its
recorded `sets` are the declared sequence args extended by every node's
`Sets`, and every node passed the missing-args check when inserted. -/
theorem getTemplate_ok {seq : SSequence} {t : Template}
    (h : getTemplate seq = Except.ok t) :
    t.name = seq.name ∧
    (seq.nodes.map (fun p => p.2)).Perm t.order ∧
    t.sets = argsAfter (getAllSequenceArgs seq) t.order ∧
    checksOk (getAllSequenceArgs seq) t.order := by
  unfold getTemplate at h
  cases hloop : insertLoop seq.nodes (seq.nodes.length + 1)
      (seq.nodes.map (fun p => p.2)) [] (getAllSequenceArgs seq) [] with
  | error e =>
    rw [hloop] at h
    exact absurd h (by simp)
  | ok q =>
    obtain ⟨jaF, orderF⟩ := q
    rw [hloop] at h
    by_cases hv : isValidGraph seq.nodes orderF
    · simp only [hv, if_pos] at h
      injection h with h'
      obtain ⟨suffix, k1, k2, k3, k4⟩ := insertLoop_ok seq.nodes
        (seq.nodes.length + 1) _ (by simp) _ _ _ _ _ hloop
      rw [List.nil_append] at k1
      subst k1
      subst h'
      exact ⟨rfl, k2, k3, k4⟩
    · simp only [hv, if_neg, if_false] at h
      exact absurd h (by simp)

/-- A missing-args error from `getTemplate` carries nonempty missing args
computed at a live job-args set reached by valid insertions. -/
theorem getTemplate_error_missing {seq : SSequence} {nname : String}
    {ms : List String}
    (h : getTemplate seq = Except.error (GraphErr.missingArgs nname ms)) :
    ms ≠ [] ∧ ∃ nd pre, nd.name = nname ∧
      getMissingArgs nd (argsAfter (getAllSequenceArgs seq) pre) =
        Except.ok ms ∧
      checksOk (getAllSequenceArgs seq) pre := by
  unfold getTemplate at h
  cases hloop : insertLoop seq.nodes (seq.nodes.length + 1)
      (seq.nodes.map (fun p => p.2)) [] (getAllSequenceArgs seq) [] with
  | error e =>
    rw [hloop] at h
    injection h with h'
    subst h'
    exact insertLoop_error_missing seq.nodes
      (seq.nodes.length + 1) _ (by simp) _ _ _ _ _ hloop
  | ok q =>
    obtain ⟨jaF, orderF⟩ := q
    rw [hloop] at h
    by_cases hv : isValidGraph seq.nodes orderF
    · simp only [hv, if_pos] at h
      exact absurd h (by simp)
    · simp only [hv, if_neg, if_false] at h
      injection h with h'
      cases h'

/-! ## Lemmas: actual sets -/

theorem assoc_cons {α : Type} (n k : String) (v : α) (l : List (String × α)) :
    assoc ((n, v) :: l) k = if (n == k) then some v else assoc l k := by
  unfold assoc
  rw [List.find?_cons]
  by_cases h : (n == k)
  · simp [h]
  · simp only [h]
    simp at h
    simp [h]

theorem assoc_append_isSome {α : Type} (l1 l2 : List (String × α))
    (k : String) (h : (assoc l2 k).isSome = true) :
    (assoc (l1 ++ l2) k).isSome = true := by
  induction l1 with
  | nil => simpa using h
  | cons p rest ih =>
    obtain ⟨n, v⟩ := p
    rw [List.cons_append, assoc_cons]
    by_cases hnk : (n == k)
    · simp [hnk]
    · simp only [hnk]
      simpa using ih

theorem assoc_isSome_ne_nil {α : Type} {l : List (String × α)} {k : String}
    (h : (assoc l k).isSome = true) : l ≠ [] := by
  intro hnil
  subst hnil
  simp [assoc] at h


theorem assoc_map_values {α β : Type} (f : α → β)
    (l : List (String × α)) (k : String) :
    assoc (l.map (fun p => (p.1, f p.2))) k = (assoc l k).map f := by
  induction l with
  | nil => simp [assoc]
  | cons p rest ih =>
    obtain ⟨n, v⟩ := p
    rw [List.map_cons, assoc_cons, assoc_cons]
    by_cases h : (n == k)
    · simp [h]
    · simp only [h, if_false, Bool.false_eq_true]
      exact ih

theorem occsOf_eq_bind (templates : List (String × Template)) :
    ∀ (branches : List String),
      occsOf templates branches = branches.flatMap (fun s =>
        match assoc templates s with
        | some t => t.sets.dedup
        | none => []) := by
  have hgen : ∀ (branches : List String) (acc : List String),
      branches.foldl (fun l s =>
        match assoc templates s with
        | some t => l ++ t.sets.dedup
        | none => l) acc = acc ++ branches.flatMap (fun s =>
        match assoc templates s with
        | some t => t.sets.dedup
        | none => []) := by
    intro branches
    induction branches with
    | nil => intro acc; simp
    | cons s rest ih =>
      intro acc
      rw [List.foldl_cons, List.flatMap_cons]
      cases hs : assoc templates s with
      | some t => rw [ih]; simp
      | none => rw [ih]; simp
  intro branches
  unfold occsOf
  rw [hgen]
  simp

/-- For a nonempty branch list whose every branch has a template, the
count filter of `getActualSets` computes exactly the intersection of the
branch templates' `sets`. -/
theorem mem_actualOf (templates : List (String × Template)) :
    ∀ (branches : List String), branches ≠ [] →
      (∀ s ∈ branches, ∃ t, assoc templates s = some t) →
      ∀ a, a ∈ actualOf templates branches ↔
        ∀ s ∈ branches, ∃ t, assoc templates s = some t ∧ a ∈ t.sets := by
  have hcount : ∀ (branches : List String),
      (∀ s ∈ branches, ∃ t, assoc templates s = some t) →
      ∀ a, ((occsOf templates branches).count a = branches.length ↔
          ∀ s ∈ branches, ∃ t, assoc templates s = some t ∧ a ∈ t.sets) ∧
        (occsOf templates branches).count a ≤ branches.length := by
    intro branches
    induction branches with
    | nil => intro htot a; simp [occsOf]
    | cons s rest ih =>
      intro htot a
      obtain ⟨t, ht⟩ := htot s (List.mem_cons_self _ _)
      have hrest := ih (fun s' hs' => htot s' (List.mem_cons_of_mem _ hs'))
      obtain ⟨ihiff, ihle⟩ := hrest a
      have hocc : (occsOf templates (s :: rest)).count a =
          (t.sets.dedup).count a + (occsOf templates rest).count a := by
        rw [occsOf_eq_bind, List.flatMap_cons, List.count_append, ht,
          ← occsOf_eq_bind]
      have hchunk : (t.sets.dedup).count a =
          if a ∈ t.sets then 1 else 0 := by
        by_cases hmem : a ∈ t.sets
        · rw [if_pos hmem]
          exact List.nodup_iff_count_eq_one.mp (List.nodup_dedup _) a
            (List.mem_dedup.mpr hmem)
        · rw [if_neg hmem]
          exact List.count_eq_zero_of_not_mem
            (fun hc => hmem (List.mem_dedup.mp hc))
      constructor
      · constructor
        · intro hlen
          rw [hocc, hchunk] at hlen
          by_cases hmem : a ∈ t.sets
          · rw [if_pos hmem] at hlen
            intro s' hs'
            rcases List.mem_cons.mp hs' with rfl | hs'
            · exact ⟨t, ht, hmem⟩
            · refine ihiff.mp ?_ s' hs'
              simp only [List.length_cons] at hlen
              omega
          · rw [if_neg hmem] at hlen
            simp only [List.length_cons] at hlen
            omega
        · intro hall
          obtain ⟨t', ht', hmem'⟩ := hall s (List.mem_cons_self _ _)
          rw [ht] at ht'
          injection ht' with ht''
          subst ht''
          have hrestlen : (occsOf templates rest).count a = rest.length :=
            ihiff.mpr (fun s' hs' => hall s' (List.mem_cons_of_mem _ hs'))
          rw [hocc, hchunk, if_pos hmem', hrestlen]
          simp [List.length_cons]
          omega
      · rw [hocc, hchunk]
        by_cases hmem : a ∈ t.sets
        · rw [if_pos hmem]; simp [List.length_cons]; omega
        · rw [if_neg hmem]; simp [List.length_cons]; omega
  intro branches hne htot a
  unfold actualOf
  rw [List.mem_filter]
  constructor
  · intro ⟨_, hcnt⟩
    exact ((hcount branches htot a).1).mp (by simpa using hcnt)
  · intro hall
    have hlen : (occsOf templates branches).count a = branches.length :=
      ((hcount branches htot a).1).mpr hall
    refine ⟨List.mem_dedup.mpr ?_, by simpa using hlen⟩
    have hpos : 0 < (occsOf templates branches).count a := by
      rw [hlen]
      cases branches with
      | nil => exact absurd rfl hne
      | cons x xs => simp
    exact List.count_pos_iff.mp hpos

/-- `getSubsequences` written as a filtered map of the node list. -/
theorem getSubsequences_eq (allSequences : List (String × SSequence))
    (seq : SSequence) :
    getSubsequences allSequences seq =
      (seq.nodes.filter (fun p => !(nodeSubseq allSequences p.2).isEmpty)).map
        (fun p => (p.1, nodeSubseq allSequences p.2)) := by
  have hgen : ∀ (l : List (String × SNode)) (acc : List (String × List String)),
      l.foldl (fun acc p =>
        if (nodeSubseq allSequences p.2).isEmpty then acc
        else acc ++ [(p.1, nodeSubseq allSequences p.2)]) acc =
      acc ++ (l.filter (fun p => !(nodeSubseq allSequences p.2).isEmpty)).map
        (fun p => (p.1, nodeSubseq allSequences p.2)) := by
    intro l
    induction l with
    | nil => intro acc; simp
    | cons p rest ih =>
      intro acc
      rw [List.foldl_cons]
      by_cases hp : (nodeSubseq allSequences p.2).isEmpty
      · rw [if_pos hp, ih, List.filter_cons]
        simp [hp]
      · rw [if_neg hp, ih, List.filter_cons]
        simp [hp]
  unfold getSubsequences
  rw [hgen]
  simp

/-- The `getSubsequences` entry of a node that references subsequences,
looked up by its (unique) name. -/
theorem getSubsequences_entry (allSequences : List (String × SSequence))
    (seq : SSequence) (hnodup : (seq.nodes.map Prod.fst).Nodup)
    (nodeName : String) (node : SNode)
    (hmem : (nodeName, node) ∈ seq.nodes)
    (hne : nodeSubseq allSequences node ≠ []) :
    assoc (getSubsequences allSequences seq) nodeName =
      some (nodeSubseq allSequences node) := by
  rw [getSubsequences_eq]
  have hmemf : (nodeName, node) ∈ seq.nodes.filter
      (fun p => !(nodeSubseq allSequences p.2).isEmpty) := by
    rw [List.mem_filter]
    refine ⟨hmem, ?_⟩
    simpa using hne
  have hmemm : (nodeName, nodeSubseq allSequences node) ∈
      (seq.nodes.filter (fun p => !(nodeSubseq allSequences p.2).isEmpty)).map
        (fun p => (p.1, nodeSubseq allSequences p.2)) :=
    List.mem_map.mpr ⟨(nodeName, node), hmemf, rfl⟩
  refine assoc_of_mem_nodup ?_ hmemm
  have hsub : ((seq.nodes.filter
      (fun p => !(nodeSubseq allSequences p.2).isEmpty)).map
        (fun p => (p.1, nodeSubseq allSequences p.2))).map Prod.fst =
      (seq.nodes.filter (fun p => !(nodeSubseq allSequences p.2).isEmpty)).map
        Prod.fst := by
    simp
  rw [hsub]
  exact ((List.filter_sublist _).map Prod.fst).nodup hnodup

/-! ## Lemmas: Grapher state and the subsequence-reference graph -/

/-- A sequence name has a template recorded. -/
def hasT (st : GrapherState) (k : String) : Bool :=
  (assoc st.sequenceTemplates k).isSome

/-- A sequence name has an error recorded. -/
def hasE (st : GrapherState) (k : String) : Bool :=
  (assoc st.sequenceErrors k).isSome

/-- Membership in the two result maps is mutually exclusive. -/
def MapsDisjoint (st : GrapherState) : Prop :=
  ∀ k, ¬(hasT st k = true ∧ hasE st k = true)

/-- The subsequence names a given sequence name references. -/
def subsOf (allSequences : List (String × SSequence)) (name : String) :
    List String :=
  match assoc allSequences name with
  | some seq => flatSubsequences allSequences seq
  | none => []

/-- One step of the subsequence-reference graph. -/
def RefStep (allSequences : List (String × SSequence)) (a b : String) :
    Prop :=
  b ∈ subsOf allSequences a

/-- Reachability in the subsequence-reference graph. -/
def Reaches (allSequences : List (String × SSequence)) :
    String → String → Prop :=
  Relation.TransGen (RefStep allSequences)

/-- The static checker's precondition: the subsequence-reference graph is
acyclic. -/
def AcyclicRefs (allSequences : List (String × SSequence)) : Prop :=
  ∀ a, ¬ Reaches allSequences a a

theorem hasT_recordError (st : GrapherState) (n : String) (e : GraphErr)
    (k : String) : hasT (recordError st n e) k = hasT st k := rfl

theorem hasE_recordTemplate (st : GrapherState) (n : String) (t : Template)
    (k : String) : hasE (recordTemplate st n t) k = hasE st k := rfl

theorem hasE_recordError (st : GrapherState) (n : String) (e : GraphErr)
    (k : String) :
    hasE (recordError st n e) k = ((n == k) || hasE st k) := by
  unfold hasE recordError
  simp only [assoc_cons]
  by_cases h : (n == k)
  · simp [h]
  · simp [h]

theorem hasT_recordTemplate (st : GrapherState) (n : String) (t : Template)
    (k : String) :
    hasT (recordTemplate st n t) k = ((n == k) || hasT st k) := by
  unfold hasT recordTemplate
  simp only [assoc_cons]
  by_cases h : (n == k)
  · simp [h]
  · simp [h]

theorem mapsDisjoint_recordError {st : GrapherState} {n : String}
    (e : GraphErr) (hInv : MapsDisjoint st) (hT : hasT st n = false) :
    MapsDisjoint (recordError st n e) := by
  intro k hk
  rw [hasT_recordError, hasE_recordError] at hk
  obtain ⟨h1, h2⟩ := hk
  rcases Bool.or_eq_true_iff.mp h2 with h2 | h2
  · have : n = k := by simpa using h2
    subst this
    rw [h1] at hT
    cases hT
  · exact hInv k ⟨h1, h2⟩

theorem mapsDisjoint_recordTemplate {st : GrapherState} {n : String}
    (t : Template) (hInv : MapsDisjoint st) (hE : hasE st n = false) :
    MapsDisjoint (recordTemplate st n t) := by
  intro k hk
  rw [hasE_recordTemplate, hasT_recordTemplate] at hk
  obtain ⟨h1, h2⟩ := hk
  rcases Bool.or_eq_true_iff.mp h1 with h1 | h1
  · have : n = k := by simpa using h1
    subst this
    rw [h2] at hE
    cases hE
  · exact hInv k ⟨h1, h2⟩

/-- The build only prepends to the two result maps: the old maps are
suffixes of the new ones; a build that returns `true` records no new
error; a build that returns `false` leaves a nonempty error map. -/
theorem buildState_ext (all : List (String × SSequence)) : ∀ (fuel : Nat),
    (∀ (st : GrapherState) (name : String) (st' : GrapherState) (b : Bool),
      buildSequence all fuel st name = some (st', b) →
      (∃ pT, st'.sequenceTemplates = pT ++ st.sequenceTemplates) ∧
      (∃ pE, st'.sequenceErrors = pE ++ st.sequenceErrors) ∧
      (b = true → st'.sequenceErrors = st.sequenceErrors) ∧
      (b = false → st'.sequenceErrors ≠ [])) ∧
    (∀ (names : List String) (st st' : GrapherState) (ok : Bool),
      buildMany all fuel st names = some (st', ok) →
      (∃ pT, st'.sequenceTemplates = pT ++ st.sequenceTemplates) ∧
      (∃ pE, st'.sequenceErrors = pE ++ st.sequenceErrors) ∧
      (ok = true → st'.sequenceErrors = st.sequenceErrors) ∧
      (ok = false → st'.sequenceErrors ≠ [])) := by
  intro fuel
  induction fuel with
  | zero =>
    constructor
    · intro st name st' b h
      simp [buildSequence] at h
    · intro names
      induction names with
      | nil =>
        intro st st' ok h
        rw [buildMany, buildManyOf] at h
        injection h with h'
        have e1 : st = st' := congrArg Prod.fst h'
        have e2 : true = ok := congrArg Prod.snd h'
        subst e1
        subst e2
        exact ⟨⟨[], rfl⟩, ⟨[], rfl⟩, fun _ => rfl, fun hcon => absurd hcon (by simp)⟩
      | cons s rest ihr =>
        intro st st' ok h
        rw [buildMany, buildManyOf] at h
        simp [buildSequence] at h
  | succ fuel ih =>
      obtain ⟨ihS0, ihM0⟩ := ih
      have hSeq : ∀ (st : GrapherState) (name : String) (st' : GrapherState)
          (b : Bool), buildSequence all (fuel + 1) st name = some (st', b) →
          (∃ pT, st'.sequenceTemplates = pT ++ st.sequenceTemplates) ∧
          (∃ pE, st'.sequenceErrors = pE ++ st.sequenceErrors) ∧
          (b = true → st'.sequenceErrors = st.sequenceErrors) ∧
          (b = false → st'.sequenceErrors ≠ []) := by
        intro st name st' b h
        rw [buildSequence] at h
        split at h
        · injection h with h'
          have e1 : st = st' := congrArg Prod.fst h'
          have e2 : true = b := congrArg Prod.snd h'
          subst e1; subst e2
          exact ⟨⟨[], rfl⟩, ⟨[], rfl⟩, fun _ => rfl, fun hcon => absurd hcon (by simp)⟩
        · split at h
          · rename_i hTmiss hEhit
            injection h with h'
            have e1 : st = st' := congrArg Prod.fst h'
            have e2 : false = b := congrArg Prod.snd h'
            subst e1; subst e2
            refine ⟨⟨[], rfl⟩, ⟨[], rfl⟩, fun hcon => absurd hcon (by simp), fun _ => ?_⟩
            exact assoc_isSome_ne_nil hEhit
          · split at h
            · rename_i hTmiss hEmiss hfound
              injection h with h'
              have e1 : recordError st name GraphErr.cannotFindDefinition = st' :=
                congrArg Prod.fst h'
              have e2 : false = b := congrArg Prod.snd h'
              subst e1; subst e2
              exact ⟨⟨[], rfl⟩, ⟨[(name, GraphErr.cannotFindDefinition)], rfl⟩,
                fun hcon => absurd hcon (by simp), fun _ => by simp [recordError]⟩
            · rename_i hTmiss hEmiss seq hfound
              split at h
              · exact absurd h (by simp)
              · rename_i st1ok st1 ok1 heq1
                obtain ⟨⟨pT1, hpT1⟩, ⟨pE1, hpE1⟩, hok1, hnok1⟩ :=
                  ihM0 (flatSubsequences all seq) st st1 ok1 heq1
                cases ok1 with
                | false =>
                  simp only [Bool.not_false, if_pos] at h
                  injection h with h'
                  have e1 : recordError st1 name GraphErr.failedSubsequences = st' :=
                    congrArg Prod.fst h'
                  have e2 : false = b := congrArg Prod.snd h'
                  subst e1; subst e2
                  refine ⟨⟨pT1, hpT1⟩,
                    ⟨(name, GraphErr.failedSubsequences) :: pE1, by
                      simp [recordError, hpE1]⟩,
                    fun hcon => absurd hcon (by simp), fun _ => by simp [recordError]⟩
                | true =>
                  simp only [Bool.not_true, Bool.false_eq_true, if_false] at h
                  split at h
                  · rename_i hmiss
                    injection h with h'
                    have e1 : recordError st1 name
                        (GraphErr.missingSets (missingSetsOf all st1 seq)) = st' :=
                      congrArg Prod.fst h'
                    have e2 : false = b := congrArg Prod.snd h'
                    subst e1; subst e2
                    refine ⟨⟨pT1, hpT1⟩,
                      ⟨(name, GraphErr.missingSets (missingSetsOf all st1 seq)) :: pE1, by
                        simp [recordError, hpE1]⟩,
                      fun hcon => absurd hcon (by simp), fun _ => by simp [recordError]⟩
                  · split at h
                    · rename_i e hgt
                      injection h with h'
                      have e1 : recordError st1 name e = st' := congrArg Prod.fst h'
                      have e2 : false = b := congrArg Prod.snd h'
                      subst e1; subst e2
                      refine ⟨⟨pT1, hpT1⟩, ⟨(name, e) :: pE1, by
                          simp [recordError, hpE1]⟩,
                        fun hcon => absurd hcon (by simp), fun _ => by simp [recordError]⟩
                    · rename_i temp hgt
                      injection h with h'
                      have e1 : recordTemplate st1 name temp = st' := congrArg Prod.fst h'
                      have e2 : true = b := congrArg Prod.snd h'
                      subst e1; subst e2
                      refine ⟨⟨(name, temp) :: pT1, by simp [recordTemplate, hpT1]⟩,
                        ⟨pE1, by simp [recordTemplate, hpE1]⟩, fun _ => ?_, fun hcon => absurd hcon (by simp)⟩
                      simp [recordTemplate, hok1 rfl]
      refine ⟨hSeq, ?_⟩
      intro names
      induction names with
      | nil =>
        intro st st' ok h
        rw [buildMany, buildManyOf] at h
        injection h with h'
        have e1 : st = st' := congrArg Prod.fst h'
        have e2 : true = ok := congrArg Prod.snd h'
        subst e1; subst e2
        exact ⟨⟨[], rfl⟩, ⟨[], rfl⟩, fun _ => rfl, fun hcon => absurd hcon (by simp)⟩
      | cons s rest ihr =>
        intro st st' ok h
        rw [buildMany, buildManyOf] at h
        split at h
        · exact absurd h (by simp)
        · rename_i stA bA heqA
          split at h
          · exact absurd h (by simp)
          · rename_i stB bB heqB
            injection h with h'
            have e1 : stB = st' := congrArg Prod.fst h'
            have e2 : (bA && bB) = ok := congrArg Prod.snd h'
            subst e1
            obtain ⟨⟨pTA, hpTA⟩, ⟨pEA, hpEA⟩, hokA, hnokA⟩ :=
              hSeq st s stA bA heqA
            obtain ⟨⟨pTB, hpTB⟩, ⟨pEB, hpEB⟩, hokB, hnokB⟩ :=
              ihr stA stB bB heqB
            refine ⟨⟨pTB ++ pTA, by rw [hpTB, hpTA, List.append_assoc]⟩,
              ⟨pEB ++ pEA, by rw [hpEB, hpEA, List.append_assoc]⟩, ?_, ?_⟩
            · intro hok
              rw [← e2] at hok
              obtain ⟨hA, hB⟩ := Bool.and_eq_true_iff.mp hok
              rw [hokB hB, hokA hA]
            · intro hnok
              rw [← e2] at hnok
              rcases Bool.and_eq_false_iff.mp hnok with hA | hB
              · cases bB with
                | true => rw [hokB rfl]; exact hnokA hA
                | false => exact hnokB rfl
              · exact hnokB hB

/-- Keys newly recorded by a build are the built name or reachable from
it in the subsequence-reference graph; under acyclic references the two
result maps stay disjoint, the built name ends up recorded in exactly
the map matching the returned flag. -/
theorem buildState_inv (all : List (String × SSequence))
    (hAcyclic : AcyclicRefs all) : ∀ (fuel : Nat),
    (∀ (st : GrapherState) (name : String) (st' : GrapherState) (b : Bool),
      buildSequence all fuel st name = some (st', b) →
      (∀ k, hasT st k = false → hasE st k = false →
        (hasT st' k = true ∨ hasE st' k = true) →
        k = name ∨ Reaches all name k) ∧
      (MapsDisjoint st →
        MapsDisjoint st' ∧
        (b = true ↔ hasT st' name = true) ∧
        (b = false ↔ hasE st' name = true))) ∧
    (∀ (names : List String) (st st' : GrapherState) (ok : Bool),
      buildMany all fuel st names = some (st', ok) →
      (∀ k, hasT st k = false → hasE st k = false →
        (hasT st' k = true ∨ hasE st' k = true) →
        ∃ s ∈ names, k = s ∨ Reaches all s k) ∧
      (MapsDisjoint st → MapsDisjoint st')) := by
  intro fuel
  induction fuel with
  | zero =>
    constructor
    · intro st name st' b h
      simp [buildSequence] at h
    · intro names
      induction names with
      | nil =>
        intro st st' ok h
        rw [buildMany, buildManyOf] at h
        injection h with h'
        have e1 : st = st' := congrArg Prod.fst h'
        subst e1
        refine ⟨?_, fun hInv => hInv⟩
        intro k hT hE hrec
        rcases hrec with hrec | hrec
        · rw [hT] at hrec; cases hrec
        · rw [hE] at hrec; cases hrec
      | cons s rest ihr =>
        intro st st' ok h
        rw [buildMany, buildManyOf] at h
        simp [buildSequence] at h
  | succ fuel ih =>
    obtain ⟨ihS0, ihM0⟩ := ih
    have hSeq : ∀ (st : GrapherState) (name : String) (st' : GrapherState)
        (b : Bool), buildSequence all (fuel + 1) st name = some (st', b) →
        (∀ k, hasT st k = false → hasE st k = false →
          (hasT st' k = true ∨ hasE st' k = true) →
          k = name ∨ Reaches all name k) ∧
        (MapsDisjoint st →
          MapsDisjoint st' ∧
          (b = true ↔ hasT st' name = true) ∧
          (b = false ↔ hasE st' name = true)) := by
      intro st name st' b h
      rw [buildSequence] at h
      by_cases hThit : (assoc st.sequenceTemplates name).isSome = true
      · rw [if_pos hThit] at h
        injection h with h'
        have e1 : st = st' := congrArg Prod.fst h'
        have e2 : true = b := congrArg Prod.snd h'
        subst e1; subst e2
        constructor
        · intro k hT hE hrec
          rcases hrec with hrec | hrec
          · rw [hT] at hrec; cases hrec
          · rw [hE] at hrec; cases hrec
        · intro hInv
          refine ⟨hInv, ?_, ?_⟩
          · simp [hasT, hThit]
          · constructor
            · intro hcon; cases hcon
            · intro hcon
              exact absurd ⟨by simpa [hasT] using hThit, hcon⟩ (hInv name)
      · rw [if_neg hThit] at h
        have hTname : hasT st name = false := by
          simpa [hasT] using hThit
        by_cases hEhit : (assoc st.sequenceErrors name).isSome = true
        · rw [if_pos hEhit] at h
          injection h with h'
          have e1 : st = st' := congrArg Prod.fst h'
          have e2 : false = b := congrArg Prod.snd h'
          subst e1; subst e2
          constructor
          · intro k hT hE hrec
            rcases hrec with hrec | hrec
            · rw [hT] at hrec; cases hrec
            · rw [hE] at hrec; cases hrec
          · intro hInv
            refine ⟨hInv, ?_, ?_⟩
            · constructor
              · intro hcon; cases hcon
              · intro hcon; rw [hTname] at hcon; cases hcon
            · simp [hasE, hEhit]
        · rw [if_neg hEhit] at h
          have hEname : hasE st name = false := by
            simpa [hasE] using hEhit
          cases hfound : assoc all name with
          | none =>
            rw [hfound] at h
            simp only [] at h
            injection h with h'
            have e1 : recordError st name GraphErr.cannotFindDefinition = st' :=
              congrArg Prod.fst h'
            have e2 : false = b := congrArg Prod.snd h'
            subst e1; subst e2
            constructor
            · intro k hT hE hrec
              rcases hrec with hrec | hrec
              · rw [hasT_recordError, hT] at hrec; cases hrec
              · rw [hasE_recordError] at hrec
                rcases Bool.or_eq_true_iff.mp hrec with hrec | hrec
                · exact Or.inl (Eq.symm (by simpa using hrec))
                · rw [hE] at hrec; cases hrec
            · intro hInv
              refine ⟨mapsDisjoint_recordError _ hInv hTname, ?_, ?_⟩
              · rw [hasT_recordError]
                constructor
                · intro hcon; cases hcon
                · intro hcon; rw [hTname] at hcon; cases hcon
              · simp [hasE_recordError]
          | some seq =>
            rw [hfound] at h
            simp only [] at h
            cases heq1 : buildManyOf (buildSequence all fuel) st
                (flatSubsequences all seq) with
            | none => rw [heq1] at h; cases h
            | some q =>
              obtain ⟨st1, ok1⟩ := q
              rw [heq1] at h
              have heq1' : buildMany all fuel st (flatSubsequences all seq) =
                  some (st1, ok1) := heq1
              obtain ⟨ihNew, ihInv⟩ :=
                ihM0 (flatSubsequences all seq) st st1 ok1 heq1'
              have hsubsOf : subsOf all name = flatSubsequences all seq := by
                unfold subsOf
                rw [hfound]
              have hfresh1 : hasT st1 name = false ∧ hasE st1 name = false := by
                by_contra hcon
                rw [not_and_or] at hcon
                have hrec1 : hasT st1 name = true ∨ hasE st1 name = true := by
                  rcases hcon with hc | hc
                  · simp at hc; exact Or.inl hc
                  · simp at hc; exact Or.inr hc
                obtain ⟨s, hs, hks⟩ := ihNew name hTname hEname hrec1
                have hstep : RefStep all name s := by
                  unfold RefStep
                  rw [hsubsOf]
                  exact hs
                rcases hks with rfl | hks
                · exact hAcyclic name (Relation.TransGen.single hstep)
                · exact hAcyclic name (Relation.TransGen.head hstep hks)
              obtain ⟨hT1, hE1⟩ := hfresh1
              have hNewStep : ∀ k, hasT st k = false → hasE st k = false →
                  (hasT st1 k = true ∨ hasE st1 k = true) →
                  k = name ∨ Reaches all name k := by
                intro k hT hE hrec
                obtain ⟨s, hs, hks⟩ := ihNew k hT hE hrec
                have hstep : RefStep all name s := by
                  unfold RefStep
                  rw [hsubsOf]
                  exact hs
                rcases hks with rfl | hks
                · exact Or.inr (Relation.TransGen.single hstep)
                · exact Or.inr (Relation.TransGen.head hstep hks)
              have hErrCase : ∀ (e : GraphErr),
                  st' = recordError st1 name e → b = false →
                  (∀ k, hasT st k = false → hasE st k = false →
                    (hasT st' k = true ∨ hasE st' k = true) →
                    k = name ∨ Reaches all name k) ∧
                  (MapsDisjoint st →
                    MapsDisjoint st' ∧
                    (b = true ↔ hasT st' name = true) ∧
                    (b = false ↔ hasE st' name = true)) := by
                intro e hst' hb
                subst hst'; subst hb
                constructor
                · intro k hT hE hrec
                  rcases hrec with hrec | hrec
                  · exact hNewStep k hT hE
                      (Or.inl (by rwa [hasT_recordError] at hrec))
                  · rw [hasE_recordError] at hrec
                    rcases Bool.or_eq_true_iff.mp hrec with hrec | hrec
                    · exact Or.inl (Eq.symm (by simpa using hrec))
                    · exact hNewStep k hT hE (Or.inr hrec)
                · intro hInv
                  refine ⟨mapsDisjoint_recordError _ (ihInv hInv) hT1, ?_, ?_⟩
                  · rw [hasT_recordError]
                    constructor
                    · intro hcon; cases hcon
                    · intro hcon; rw [hT1] at hcon; cases hcon
                  · simp [hasE_recordError]
              cases ok1 with
              | false =>
                simp only [Bool.not_false, if_pos] at h
                injection h with h'
                exact hErrCase GraphErr.failedSubsequences
                  (congrArg Prod.fst h').symm (congrArg Prod.snd h').symm
              | true =>
                simp only [Bool.not_true, Bool.false_eq_true, if_false] at h
                cases hmv : (missingSetsOf all st1 seq).isEmpty with
                | false =>
                  rw [hmv] at h
                  simp only [Bool.not_false, if_pos] at h
                  injection h with h'
                  exact hErrCase (GraphErr.missingSets (missingSetsOf all st1 seq))
                    (congrArg Prod.fst h').symm (congrArg Prod.snd h').symm
                | true =>
                  rw [hmv] at h
                  simp only [Bool.not_true, Bool.false_eq_true, if_false] at h
                  cases hgt : getTemplate seq with
                  | error e =>
                    rw [hgt] at h
                    injection h with h'
                    exact hErrCase e
                      (congrArg Prod.fst h').symm (congrArg Prod.snd h').symm
                  | ok temp =>
                    rw [hgt] at h
                    injection h with h'
                    have e1 : recordTemplate st1 name temp = st' :=
                      congrArg Prod.fst h'
                    have e2 : true = b := congrArg Prod.snd h'
                    subst e1; subst e2
                    constructor
                    · intro k hT hE hrec
                      rcases hrec with hrec | hrec
                      · rw [hasT_recordTemplate] at hrec
                        rcases Bool.or_eq_true_iff.mp hrec with hrec | hrec
                        · exact Or.inl (Eq.symm (by simpa using hrec))
                        · exact hNewStep k hT hE (Or.inl hrec)
                      · exact hNewStep k hT hE
                          (Or.inr (by rwa [hasE_recordTemplate] at hrec))
                    · intro hInv
                      refine ⟨mapsDisjoint_recordTemplate _ (ihInv hInv) hE1,
                        ?_, ?_⟩
                      · simp [hasT_recordTemplate]
                      · rw [hasE_recordTemplate]
                        constructor
                        · intro hcon; cases hcon
                        · intro hcon; rw [hE1] at hcon; cases hcon
    refine ⟨hSeq, ?_⟩
    intro names
    induction names with
    | nil =>
      intro st st' ok h
      rw [buildMany, buildManyOf] at h
      injection h with h'
      have e1 : st = st' := congrArg Prod.fst h'
      subst e1
      refine ⟨?_, fun hInv => hInv⟩
      intro k hT hE hrec
      rcases hrec with hrec | hrec
      · rw [hT] at hrec; cases hrec
      · rw [hE] at hrec; cases hrec
    | cons s rest ihr =>
      intro st st' ok h
      rw [buildMany, buildManyOf] at h
      split at h
      · exact absurd h (by simp)
      · rename_i stA bA heqA
        split at h
        · exact absurd h (by simp)
        · rename_i stB bB heqB
          injection h with h'
          have e1 : stB = st' := congrArg Prod.fst h'
          subst e1
          obtain ⟨hNewA, hInvA⟩ := hSeq st s stA bA heqA
          obtain ⟨hNewB, hInvB⟩ := ihr stA stB bB heqB
          constructor
          · intro k hT hE hrec
            by_cases hTA : hasT stA k = true
            · rcases hNewA k hT hE (Or.inl hTA) with hk | hk
              · exact ⟨s, List.mem_cons_self _ _, Or.inl hk⟩
              · exact ⟨s, List.mem_cons_self _ _, Or.inr hk⟩
            · by_cases hEA : hasE stA k = true
              · rcases hNewA k hT hE (Or.inr hEA) with hk | hk
                · exact ⟨s, List.mem_cons_self _ _, Or.inl hk⟩
                · exact ⟨s, List.mem_cons_self _ _, Or.inr hk⟩
              · have hTA' : hasT stA k = false := by simpa using hTA
                have hEA' : hasE stA k = false := by simpa using hEA
                obtain ⟨s', hs', hks'⟩ := hNewB k hTA' hEA' hrec
                exact ⟨s', List.mem_cons_of_mem _ hs', hks'⟩
          · intro hInv
            exact hInvB ((hInvA hInv).1)

/-- Persisting a recorded template: the maps only grow. -/
theorem hasT_mono {all : List (String × SSequence)} {fuel : Nat}
    {st st' : GrapherState} {names : List String} {ok : Bool}
    (h : buildMany all fuel st names = some (st', ok)) {k : String}
    (hk : hasT st k = true) : hasT st' k = true := by
  obtain ⟨⟨pT, hpT⟩, _, _, _⟩ := (buildState_ext all fuel).2 names st st' ok h
  unfold hasT at hk ⊢
  rw [hpT]
  exact assoc_append_isSome _ _ _ hk

/-- Persisting a recorded error: the maps only grow. -/
theorem hasE_mono {all : List (String × SSequence)} {fuel : Nat}
    {st st' : GrapherState} {names : List String} {ok : Bool}
    (h : buildMany all fuel st names = some (st', ok)) {k : String}
    (hk : hasE st k = true) : hasE st' k = true := by
  obtain ⟨_, ⟨pE, hpE⟩, _, _⟩ := (buildState_ext all fuel).2 names st st' ok h
  unfold hasE at hk ⊢
  rw [hpE]
  exact assoc_append_isSome _ _ _ hk

/-- A relation whose every step strictly decreases a rank has no cycle;
used to discharge `AcyclicRefs` on concrete specs. -/
theorem acyclic_of_rank (all : List (String × SSequence)) (f : String → Nat)
    (hf : ∀ x y, RefStep all x y → f y < f x) : AcyclicRefs all := by
  intro a h
  have hlt : ∀ b c, Reaches all b c → f c < f b := by
    intro b c hbc
    induction hbc with
    | single hstep => exact hf _ _ hstep
    | tail _ hstep ih => exact Nat.lt_trans (hf _ _ hstep) ih
  exact Nat.lt_irrefl _ (hlt a a h)

/-! ## Concrete specs used by witnesses and counterexamples -/

/-- A job node consuming `argsGiven` and producing `setsAs`. -/
def exJob (name : String) (deps argsGiven setsAs : List String) : SNode :=
  { name := name, category := some "job", nodeType := some "job-type"
    each := [], ifArg := none, eq := []
    args := argsGiven.map (fun g => { expected := g, given := some g })
    sets := setsAs.map (fun a => { arg := a, asName := some a })
    deps := deps, retry := 0, retryWait := "" }

/-- A sequence-category node referencing `target` and declaring `setsAs`. -/
def exRefNode (name target : String) (setsAs : List String) : SNode :=
  { name := name, category := some "sequence", nodeType := some target
    each := [], ifArg := none, eq := []
    args := []
    sets := setsAs.map (fun a => { arg := a, asName := some a })
    deps := [], retry := 0, retryWait := "" }

/-- A two-node chain: `n1` consumes the declared arg `r` and sets `x`,
`n2` depends on `n1` and consumes `x`. -/
def exSeq1 : SSequence :=
  { name := "s1", request := true
    args := { required := [{ name := "r", defaultVal := none }],
              optional := [], static := [] }
    nodes := [("n1", exJob "n1" [] ["r"] ["x"]),
              ("n2", exJob "n2" ["n1"] ["x"] [])] }

/-- The template `getTemplate` builds for `exSeq1`. -/
def exSeq1T : Template :=
  ⟨"s1", ["r", "x"], [exJob "n1" [] ["r"] ["x"], exJob "n2" ["n1"] ["x"] []]⟩

/-- Two independent nodes, one setting `x`, the other `y`: the graph has
two completing paths, each through a single node. -/
def exPar : SSequence :=
  { name := "par2", request := true
    args := { required := [], optional := [], static := [] }
    nodes := [("A", exJob "A" [] [] ["x"]), ("B", exJob "B" [] [] ["y"])] }

/-- A dependency cycle `a <-> b` next to a node `e` whose arg `x` nobody
produces. -/
def exCycleMissing : SSequence :=
  { name := "c4", request := true
    args := { required := [], optional := [], static := [] }
    nodes := [("a", exJob "a" ["b"] [] []), ("b", exJob "b" ["a"] [] []),
              ("e", exJob "e" [] ["x"] [])] }

/-- A pure dependency cycle `a <-> b`. -/
def exCycle : SSequence :=
  { name := "c42", request := true
    args := { required := [], optional := [], static := [] }
    nodes := [("a", exJob "a" ["b"] [] []), ("b", exJob "b" ["a"] [] [])] }

/-- A subsequence producing only `x`. -/
def exChild : SSequence :=
  { name := "child", request := false
    args := { required := [], optional := [], static := [] }
    nodes := [("cn", exJob "cn" [] [] ["x"])] }

/-- References `child` but promises to set `z`, which `child` never
produces. -/
def exParent : SSequence :=
  { name := "parent", request := true
    args := { required := [], optional := [], static := [] }
    nodes := [("pn", exRefNode "pn" "child" ["z"])] }

/-- References the failing `parent`. -/
def exGrand : SSequence :=
  { name := "gp", request := true
    args := { required := [], optional := [], static := [] }
    nodes := [("gn", exRefNode "gn" "parent" [])] }

/-- Fails its own missing-args check and references no subsequence. -/
def exOwnFail : SSequence :=
  { name := "p", request := true
    args := { required := [], optional := [], static := [] }
    nodes := [("n", exJob "n" [] ["missing"] [])] }

/-- The spec set for the cascade scenario. -/
def exAllC6 : List (String × SSequence) :=
  [("gp", exGrand), ("parent", exParent), ("child", exChild),
   ("p", exOwnFail), ("s1", exSeq1)]

/-- Job-only sequences reference nothing, so every `RefStep` out of
`exAllC6` goes `gp -> parent` or `parent -> child`; rank them. -/
theorem exAllC6_acyclic : AcyclicRefs exAllC6 := by
  apply acyclic_of_rank _
    (fun s => if s = "gp" then 2 else if s = "parent" then 1 else 0)
  intro x y h
  unfold RefStep subsOf at h
  cases hx : assoc exAllC6 x with
  | none => rw [hx] at h; simp at h
  | some seq =>
    rw [hx] at h
    have hmem := assoc_some hx
    have hcases : (x = "gp" ∧ seq = exGrand) ∨ (x = "parent" ∧ seq = exParent) ∨
        (x = "child" ∧ seq = exChild) ∨ (x = "p" ∧ seq = exOwnFail) ∨
        (x = "s1" ∧ seq = exSeq1) := by
      simpa [exAllC6, Prod.ext_iff] using hmem
    rcases hcases with ⟨rfl, rfl⟩ | ⟨rfl, rfl⟩ | ⟨rfl, rfl⟩ | ⟨rfl, rfl⟩ | ⟨rfl, rfl⟩
    · have h' : y ∈ flatSubsequences exAllC6 exGrand := h
      have hy : y = "parent" := by
        simpa [show flatSubsequences exAllC6 exGrand = ["parent"] from rfl] using h'
      subst hy; decide
    · have h' : y ∈ flatSubsequences exAllC6 exParent := h
      have hy : y = "child" := by
        simpa [show flatSubsequences exAllC6 exParent = ["child"] from rfl] using h'
      subst hy; decide
    · have h' : y ∈ flatSubsequences exAllC6 exChild := h
      rw [show flatSubsequences exAllC6 exChild = [] from rfl] at h'
      simp at h'
    · have h' : y ∈ flatSubsequences exAllC6 exOwnFail := h
      rw [show flatSubsequences exAllC6 exOwnFail = [] from rfl] at h'
      simp at h'
    · have h' : y ∈ flatSubsequences exAllC6 exSeq1 := h
      rw [show flatSubsequences exAllC6 exSeq1 = [] from rfl] at h'
      simp at h'

/-- A conditional node dispatching between sequences `sA` and `sB`. -/
def exCondNode : SNode :=
  { name := "cnd", category := some "conditional", nodeType := some "sA"
    each := [], ifArg := some "which"
    eq := [("v1", "sA"), ("default", "sB")]
    args := [], sets := [], deps := [], retry := 0, retryWait := "" }

/-- A sequence that produces `x` and `y`. -/
def exSA : SSequence :=
  { name := "sA", request := false
    args := { required := [], optional := [], static := [] }
    nodes := [("a1", exJob "a1" [] [] ["x", "y"])] }

/-- A sequence that produces `y` and `z`. -/
def exSB : SSequence :=
  { name := "sB", request := false
    args := { required := [], optional := [], static := [] }
    nodes := [("b1", exJob "b1" [] [] ["y", "z"])] }

/-- A sequence with one sequence node (to `sA`) and one conditional node
(between `sA` and `sB`). -/
def exCondSeq : SSequence :=
  { name := "cond", request := true
    args := { required := [{ name := "which", defaultVal := none }],
              optional := [], static := [] }
    nodes := [("sn", exRefNode "sn" "sA" []), ("cnd", exCondNode)] }

/-- The spec set for the conditional scenario. -/
def exAllCond : List (String × SSequence) :=
  [("sA", exSA), ("sB", exSB), ("cond", exCondSeq)]

/-- Templates for the two branch sequences. -/
def exTmplA : Template := ⟨"sA", ["x", "y"], [exJob "a1" [] [] ["x", "y"]]⟩

def exTmplB : Template := ⟨"sB", ["y", "z"], [exJob "b1" [] [] ["y", "z"]]⟩

def exTemplates : List (String × Template) :=
  [("sA", exTmplA), ("sB", exTmplB)]

/-! ## The spec's path-based description of `template.sets` (C3) -/

/-- The nodes that depend on `name` (the out-edges of a template node per
the spec's description of the graph). -/
def dependentsOf (nodes : List (String × SNode)) (name : String) :
    List SNode :=
  (nodes.filter (fun p => p.2.deps.contains name)).map (fun p => p.2)

/-- Follows the spec's words (for comparison with the code's value): the
completing paths of the template graph starting at a given node —
maximal chains following dependency edges until a node nobody depends
on.  Paths in a DAG of `n` nodes have at most `n` nodes, which bounds
the fuel. -/
def completingPathsFrom (nodes : List (String × SNode)) :
    Nat → SNode → List (List SNode)
  | 0, _ => []
  | Nat.succ fuel, n =>
    if (dependentsOf nodes n.name).isEmpty then [[n]]
    else ((dependentsOf nodes n.name).flatMap
      (fun m => completingPathsFrom nodes fuel m)).map (fun p => n :: p)

/-- Follows the spec's words: all completing paths — from a
dependency-less node (after `start`) to a terminal node (before `end`). -/
def completingPaths (nodes : List (String × SNode)) : List (List SNode) :=
  (nodes.filter (fun p => p.2.deps.isEmpty)).flatMap
    (fun p => completingPathsFrom nodes nodes.length p.2)

/-- The union of `As` names over the nodes of one path. -/
def pathAs (p : List SNode) : List String :=
  p.flatMap (fun nd => nd.sets.map (fun s => s.asName.getD ""))

/-- Follows the spec's words: "the intersection over all completing
paths of the union of `As` over nodes on that path". -/
def specStatedSets (seq : SSequence) : List String :=
  match completingPaths seq.nodes with
  | [] => []
  | p :: rest =>
    rest.foldl (fun acc q => acc.filter (fun a => (pathAs q).contains a))
      (pathAs p)

/-! ## Claims C1, C3, C4 -/

/-- Helper for C1: when the sequence's own `getTemplate` fails, a
non-memoized `buildSequence` call cannot return `true`. -/
theorem buildSequence_error_false {all : List (String × SSequence)}
    {fuel : Nat} {st : GrapherState} {name : String} {seq : SSequence}
    {st' : GrapherState} {b : Bool} {e : GraphErr}
    (hT : hasT st name = false) (hE : hasE st name = false)
    (hfound : assoc all name = some seq)
    (hgt : getTemplate seq = Except.error e)
    (h : buildSequence all fuel st name = some (st', b)) : b = false := by
  cases fuel with
  | zero => simp [buildSequence] at h
  | succ fuel =>
    rw [buildSequence] at h
    rw [if_neg (by simpa [hasT] using hT)] at h
    rw [if_neg (by simpa [hasE] using hE)] at h
    rw [hfound] at h
    simp only [] at h
    cases heq1 : buildManyOf (buildSequence all fuel) st
        (flatSubsequences all seq) with
    | none => rw [heq1] at h; cases h
    | some q =>
      obtain ⟨st1, ok1⟩ := q
      rw [heq1] at h
      cases ok1 with
      | false =>
        simp only [Bool.not_false, if_pos] at h
        injection h with h'
        exact (congrArg Prod.snd h').symm
      | true =>
        simp only [Bool.not_true, Bool.false_eq_true, if_false] at h
        cases hmv : (missingSetsOf all st1 seq).isEmpty with
        | false =>
          rw [hmv] at h
          simp only [Bool.not_false, if_pos] at h
          injection h with h'
          exact (congrArg Prod.snd h').symm
        | true =>
          rw [hmv] at h
          simp only [Bool.not_true, Bool.false_eq_true, if_false] at h
          rw [hgt] at h
          injection h with h'
          exact (congrArg Prod.snd h').symm

/-- **C1.** In every successfully built template, every node passed the
missing-args check against the job args live at its insertion point (the
declared sequence args plus the `As` names of the previously inserted
nodes).  Conversely, a missing-args failure surfaces as an error carrying
the nonempty list `getMissingArgs` computed at a reachable live job-args
set, and `buildSequence` then records the error, not a template, for
that sequence. -/
theorem claim_C1_missing_args :
    (∀ (seq : SSequence) (t : Template), getTemplate seq = Except.ok t →
      checksOk (getAllSequenceArgs seq) t.order) ∧
    (∀ (seq : SSequence) (nname : String) (ms : List String),
      getTemplate seq = Except.error (GraphErr.missingArgs nname ms) →
      ms ≠ [] ∧ ∃ nd pre, nd.name = nname ∧
        getMissingArgs nd (argsAfter (getAllSequenceArgs seq) pre) =
          Except.ok ms ∧
        checksOk (getAllSequenceArgs seq) pre) ∧
    (∀ (all : List (String × SSequence)), AcyclicRefs all →
      ∀ (fuel : Nat) (st : GrapherState) (name : String) (seq : SSequence)
        (st' : GrapherState) (b : Bool) (e : GraphErr),
        MapsDisjoint st → hasT st name = false → hasE st name = false →
        assoc all name = some seq → getTemplate seq = Except.error e →
        buildSequence all fuel st name = some (st', b) →
        b = false ∧ hasT st' name = false ∧ hasE st' name = true) := by
  refine ⟨?_, ?_, ?_⟩
  · intro seq t h
    exact (getTemplate_ok h).2.2.2
  · intro seq nname ms h
    exact getTemplate_error_missing h
  · intro all hAcyclic fuel st name seq st' b e hInv hT hE hfound hgt h
    have hb : b = false := buildSequence_error_false hT hE hfound hgt h
    subst hb
    obtain ⟨_, hinv⟩ := (buildState_inv all hAcyclic fuel).1 st name st' false h
    obtain ⟨hInv', hiffT, hiffE⟩ := hinv hInv
    have hEtrue : hasE st' name = true := hiffE.mp rfl
    refine ⟨rfl, ?_, hEtrue⟩
    by_contra hcon
    have : hasT st' name = true := by simpa using hcon
    exact hInv' name ⟨this, hEtrue⟩

/-- **C1 witness.** The two-node chain `exSeq1` builds successfully and
its second node's check, at its insertion point, passes. -/
theorem claim_C1_witness :
    getTemplate exSeq1 = Except.ok exSeq1T ∧
    getMissingArgs (exSeq1T.order.get ⟨1, by decide⟩)
      (argsAfter (getAllSequenceArgs exSeq1) (exSeq1T.order.take 1)) =
      Except.ok [] :=
  ⟨by rfl, claim_C1_missing_args.1 exSeq1 exSeq1T (by rfl) 1 (by decide)⟩

/-- **C3 counterexample.** For the two-parallel-node sequence `exPar`
the code records `sets = {x, y}` while the spec-stated value — the
intersection over completing paths of the union of `As` on the path —
is empty: the two values differ. -/
theorem claim_C3_counterexample :
    (getTemplate exPar).toOption.map Template.sets = some ["x", "y"] ∧
    specStatedSets exPar = [] := by
  constructor
  · rfl
  · rfl

/-- **C3 (amended).** For every successfully built template, the
recorded `template.sets` are the sequence's declared required, optional
and static arg names together with the `As` names of every node's `Sets`
entries — the union over all nodes, not the intersection over completing
paths. -/
theorem claim_C3_sets :
    ∀ (seq : SSequence) (t : Template), getTemplate seq = Except.ok t →
      ∀ a, a ∈ t.sets ↔
        (a ∈ getAllSequenceArgs seq ∨
          ∃ p ∈ seq.nodes, ∃ s ∈ p.2.sets, s.asName.getD "" = a) := by
  intro seq t h a
  obtain ⟨_, hperm, hsets, _⟩ := getTemplate_ok h
  rw [hsets, mem_argsAfter]
  constructor
  · rintro (ha | ⟨nd, hnd, hs⟩)
    · exact Or.inl ha
    · have : nd ∈ seq.nodes.map (fun p => p.2) := hperm.mem_iff.mpr hnd
      obtain ⟨p, hp, rfl⟩ := List.mem_map.mp this
      exact Or.inr ⟨p, hp, hs⟩
  · rintro (ha | ⟨p, hp, hs⟩)
    · exact Or.inl ha
    · refine Or.inr ⟨p.2, ?_, hs⟩
      exact hperm.mem_iff.mp (List.mem_map.mpr ⟨p, hp, rfl⟩)

/-- **C3 witness.** On `exSeq1`, the arg `x` is in the recorded sets by
the amended rule. -/
theorem claim_C3_witness :
    getTemplate exSeq1 = Except.ok exSeq1T ∧ ("x" ∈ exSeq1T.sets ↔
      ("x" ∈ getAllSequenceArgs exSeq1 ∨
        ∃ p ∈ exSeq1.nodes, ∃ s ∈ p.2.sets, s.asName.getD "" = "x")) :=
  ⟨by rfl, claim_C3_sets exSeq1 exSeq1T (by rfl) "x"⟩

/-- **C4 counterexample.** `exCycleMissing` has the dependency cycle
`a <-> b`, yet `getTemplate` returns the missing-args error for node `e`
rather than the impossible-dependencies error: an iteration may also end
with a missing-args error, so the claim's "returns this
\['impossible dependencies'\] error" fails as stated. -/
theorem claim_C4_counterexample :
    getTemplate exCycleMissing =
      Except.error (GraphErr.missingArgs "e" ["x"]) ∧
    (assoc exCycleMissing.nodes "a").map SNode.deps = some ["b"] ∧
    (assoc exCycleMissing.nodes "b").map SNode.deps = some ["a"] := by
  refine ⟨by rfl, by rfl, by rfl⟩

/-- **C4 (amended).** Every pass of the insertion loop splits the
worklist into inserted and remaining nodes (so a productive pass
strictly shrinks it), and for every sequence whose dependency graph has
a cycle among its (uniquely named) nodes, `getTemplate` terminates with
an error — the impossible-dependencies error when no preceding check
fails, but possibly a missing-args (or malformed-each) error raised on a
node whose dependencies were satisfiable. -/
theorem claim_C4_termination :
    (∀ (nodes : List (String × SNode)) (toAdd : List SNode)
      (added jobArgs : List String) (rem : List SNode)
      (added' jobArgs' : List String) (ins : List SNode),
      passOnce nodes toAdd added jobArgs =
        Except.ok (rem, added', jobArgs', ins) →
      rem.length + ins.length = toAdd.length) ∧
    (∀ (seq : SSequence) (C : List String),
      C ≠ [] →
      (∀ p ∈ seq.nodes, p.2.name = p.1) →
      (seq.nodes.map Prod.fst).Nodup →
      (∀ c ∈ C, ∃ nd, assoc seq.nodes c = some nd ∧ nd.name = c ∧
        ∃ d, d ∈ nd.deps ∧ d ∈ C) →
      ∃ e, getTemplate seq = Except.error e) := by
  constructor
  · intro nodes toAdd added jobArgs rem added' jobArgs' ins h
    exact passOnce_length nodes toAdd added jobArgs rem added' jobArgs' ins h
  · intro seq C hCne hkeys hnodup hcert
    have hC : ∀ c ∈ C, ∃ nd2, assoc seq.nodes c = some nd2 ∧ nd2.name = c := by
      intro c hc
      obtain ⟨nd, h1, h2, _⟩ := hcert c hc
      exact ⟨nd, h1, h2⟩
    have hdeps : ∀ nd ∈ seq.nodes.map (fun p => p.2), nd.name ∈ C →
        ∃ d, d ∈ nd.deps ∧ d ∈ C := by
      intro nd hnd hname
      obtain ⟨p, hp, hpe⟩ := List.mem_map.mp hnd
      obtain ⟨nd', h1, h2, d, hd1, hd2⟩ := hcert nd.name hname
      have hkey : p.1 = nd.name := by
        rw [← hkeys p hp, hpe]
      have hassoc : assoc seq.nodes nd.name = some nd := by
        refine assoc_of_mem_nodup hnodup ?_
        have : p = (nd.name, nd) := by
          cases p
          simp only [Prod.mk.injEq]
          exact ⟨hkey, hpe⟩
        rw [← this]
        exact hp
      rw [hassoc] at h1
      injection h1 with h1'
      subst h1'
      exact ⟨d, hd1, hd2⟩
    have hpresent : ∃ c ∈ C, ∃ nd ∈ seq.nodes.map (fun p => p.2),
        nd.name = c := by
      cases C with
      | nil => exact absurd rfl hCne
      | cons c0 rest =>
        obtain ⟨nd, h1, h2⟩ := hC c0 (List.mem_cons_self _ _)
        refine ⟨c0, List.mem_cons_self _ _, nd, ?_, h2⟩
        exact List.mem_map.mpr ⟨(c0, nd), assoc_some h1, rfl⟩
    obtain ⟨e, he⟩ := insertLoop_cycle seq.nodes C hC (seq.nodes.length + 1)
      (seq.nodes.map (fun p => p.2)) (by simp)
      [] (getAllSequenceArgs seq) [] hdeps hpresent (by simp)
    refine ⟨e, ?_⟩
    unfold getTemplate
    rw [he]

/-- **C4 witness.** The pure two-cycle `exCycle` makes `getTemplate`
fail (and in fact with the impossible-dependencies error). -/
theorem claim_C4_witness :
    (∃ e, getTemplate exCycle = Except.error e) ∧
    getTemplate exCycle = Except.error (GraphErr.impossibleDeps ["a", "b"]) := by
  constructor
  · refine claim_C4_termination.2 exCycle ["a", "b"] (by decide)
      (by decide) (by decide) ?_
    intro c hc
    rcases List.mem_cons.mp hc with rfl | hc
    · exact ⟨exJob "a" ["b"] [] [], rfl, rfl, "b", by decide, by decide⟩
    rcases List.mem_cons.mp hc with rfl | hc
    · exact ⟨exJob "b" ["a"] [] [], rfl, rfl, "a", by decide, by decide⟩
    · cases hc
  · rfl

/-! ## Claim C2 -/

/-- **C2.** For a sequence-category node, the args the Grapher takes as
actually produced are exactly its sub-template's `sets`; for a
conditional node (with at least one sequence branch, all templated),
they are exactly the intersection of the `sets` of every possible
branch's sub-template. -/
theorem claim_C2_actual_sets :
    (∀ (all : List (String × SSequence)) (seq : SSequence)
      (templates : List (String × Template)) (nodeName : String)
      (node : SNode) (t : Template),
      (seq.nodes.map Prod.fst).Nodup → (nodeName, node) ∈ seq.nodes →
      node.IsSequence = true →
      assoc templates (node.nodeType.getD "") = some t →
      assoc (getActualSets templates (getSubsequences all seq)) nodeName =
        some (actualOf templates [node.nodeType.getD ""]) ∧
      (∀ a, a ∈ actualOf templates [node.nodeType.getD ""] ↔ a ∈ t.sets)) ∧
    (∀ (all : List (String × SSequence)) (seq : SSequence)
      (templates : List (String × Template)) (nodeName : String)
      (node : SNode),
      (seq.nodes.map Prod.fst).Nodup → (nodeName, node) ∈ seq.nodes →
      node.IsConditional = true →
      condBranches all node ≠ [] →
      (∀ s ∈ condBranches all node, ∃ t, assoc templates s = some t) →
      assoc (getActualSets templates (getSubsequences all seq)) nodeName =
        some (actualOf templates (condBranches all node)) ∧
      (∀ a, a ∈ actualOf templates (condBranches all node) ↔
        ∀ s ∈ condBranches all node,
          ∃ t, assoc templates s = some t ∧ a ∈ t.sets)) := by
  constructor
  · intro all seq templates nodeName node t hnodup hmem hseq ht
    have hsubseq : nodeSubseq all node = [node.nodeType.getD ""] := by
      unfold nodeSubseq
      rw [if_pos hseq]
    have hentry := getSubsequences_entry all seq hnodup nodeName node hmem
      (by rw [hsubseq]; simp)
    rw [hsubseq] at hentry
    constructor
    · unfold getActualSets
      rw [assoc_map_values, hentry]
      rfl
    · intro a
      rw [mem_actualOf templates [node.nodeType.getD ""] (by simp)
        (by intro s hs; rw [List.mem_singleton] at hs; subst hs; exact ⟨t, ht⟩)]
      constructor
      · intro hall
        obtain ⟨t', ht', ha⟩ := hall (node.nodeType.getD "")
          (List.mem_singleton.mpr rfl)
        rw [ht] at ht'
        injection ht' with ht''
        subst ht''
        exact ha
      · intro ha s hs
        rw [List.mem_singleton] at hs
        subst hs
        exact ⟨t, ht, ha⟩
  · intro all seq templates nodeName node hnodup hmem hcond hne htot
    have hnotseq : node.IsSequence = false := by
      unfold SNode.IsConditional at hcond
      unfold SNode.IsSequence
      have : node.category = some "conditional" := by simpa using hcond
      rw [this]
      decide
    have hsubseq : nodeSubseq all node = condBranches all node := by
      unfold nodeSubseq
      rw [hnotseq]
      simp [hcond]
    have hentry := getSubsequences_entry all seq hnodup nodeName node hmem
      (by rw [hsubseq]; exact hne)
    rw [hsubseq] at hentry
    constructor
    · unfold getActualSets
      rw [assoc_map_values, hentry]
      rfl
    · intro a
      exact mem_actualOf templates (condBranches all node) hne htot a

/-- **C2 witness.** In `exAllCond`, the conditional node `cnd` dispatches
between `sA` (producing `x`, `y`) and `sB` (producing `y`, `z`): its
actual sets entry is exactly the intersection `{y}`. -/
theorem claim_C2_witness :
    assoc (getActualSets exTemplates (getSubsequences exAllCond exCondSeq))
      "cnd" = some (actualOf exTemplates (condBranches exAllCond exCondNode)) ∧
    actualOf exTemplates (condBranches exAllCond exCondNode) = ["y"] := by
  constructor
  · refine (claim_C2_actual_sets.2 exAllCond exCondSeq exTemplates "cnd"
      exCondNode (by decide) (by decide) (by decide) (by decide) ?_).1
    intro s hs
    have : s = "sA" ∨ s = "sB" := by
      have hb : condBranches exAllCond exCondNode = ["sA", "sB"] := by rfl
      rw [hb] at hs
      simpa using hs
    rcases this with rfl | rfl
    · exact ⟨exTmplA, rfl⟩
    · exact ⟨exTmplB, rfl⟩
  · rfl

/-! ## Claims C5 and C6 -/

theorem mapsDisjoint_empty : MapsDisjoint ⟨[], []⟩ := by
  intro k hk
  obtain ⟨h1, _⟩ := hk
  simp [hasT, assoc] at h1

/-- Every name in a completed `buildMany` worklist ends up recorded in
one of the two maps. -/
theorem buildMany_records (all : List (String × SSequence))
    (hAcyclic : AcyclicRefs all) (fuel : Nat) :
    ∀ (names : List String) (st st' : GrapherState) (ok : Bool),
      MapsDisjoint st →
      buildMany all fuel st names = some (st', ok) →
      ∀ k ∈ names, hasT st' k = true ∨ hasE st' k = true := by
  intro names
  induction names with
  | nil =>
    intro st st' ok hInv h k hk
    simp at hk
  | cons s rest ih =>
    intro st st' ok hInv h k hk
    rw [buildMany, buildManyOf] at h
    cases heqA : buildSequence all fuel st s with
    | none => rw [heqA] at h; cases h
    | some qA =>
      obtain ⟨stA, bA⟩ := qA
      rw [heqA] at h
      simp only [] at h
      cases heqB : buildManyOf (buildSequence all fuel) stA rest with
      | none => rw [heqB] at h; cases h
      | some qB =>
        obtain ⟨stB, bB⟩ := qB
        rw [heqB] at h
        injection h with h'
        have e1 : stB = st' := congrArg Prod.fst h'
        subst e1
        have heqB' : buildMany all fuel stA rest = some (stB, bB) := heqB
        obtain ⟨_, hinvA⟩ := (buildState_inv all hAcyclic fuel).1 st s stA bA heqA
        obtain ⟨hInvA, hiffT, hiffE⟩ := hinvA hInv
        rcases List.mem_cons.mp hk with rfl | hk
        · cases bA with
          | true => exact Or.inl (hasT_mono heqB' (hiffT.mp rfl))
          | false => exact Or.inr (hasE_mono heqB' (hiffE.mp rfl))
        · exact ih stA stB bB hInvA heqB' k hk

/-- **C5.** After `CreateTemplates` (on acyclic specs), membership in
the template map and the error map is mutually exclusive, and the
returned flag is true exactly when the error map is empty; a
`buildSequence` call on a name already recorded in either map returns
immediately with the recorded outcome and an unchanged state, so each
sequence is built at most once. -/
theorem claim_C5_memoized_disjoint :
    (∀ (all : List (String × SSequence)) (fuel : Nat) (st : GrapherState)
      (ok : Bool), AcyclicRefs all →
      CreateTemplates all fuel = some (st, ok) →
      (∀ k, ¬(hasT st k = true ∧ hasE st k = true)) ∧
      (ok = true ↔ st.sequenceErrors = [])) ∧
    (∀ (all : List (String × SSequence)) (fuel : Nat) (st : GrapherState)
      (name : String), hasT st name = true →
      buildSequence all (fuel + 1) st name = some (st, true)) ∧
    (∀ (all : List (String × SSequence)) (fuel : Nat) (st : GrapherState)
      (name : String), hasT st name = false → hasE st name = true →
      buildSequence all (fuel + 1) st name = some (st, false)) := by
  refine ⟨?_, ?_, ?_⟩
  · intro all fuel st ok hAcyclic h
    have h' : buildMany all fuel ⟨[], []⟩ (all.map Prod.fst) = some (st, ok) := h
    constructor
    · exact (buildState_inv all hAcyclic fuel).2 (all.map Prod.fst) ⟨[], []⟩
        st ok h' |>.2 mapsDisjoint_empty
    · obtain ⟨_, _, hokE, hnokE⟩ := (buildState_ext all fuel).2
        (all.map Prod.fst) ⟨[], []⟩ st ok h'
      constructor
      · intro hok
        exact hokE hok
      · intro herrs
        cases ok with
        | true => rfl
        | false => exact absurd herrs (hnokE rfl)
  · intro all fuel st name hT
    rw [buildSequence]
    rw [if_pos (by simpa [hasT] using hT)]
  · intro all fuel st name hT hE
    rw [buildSequence]
    rw [if_neg (by simpa [hasT] using hT), if_pos (by simpa [hasE] using hE)]

/-- The final grapher state of `CreateTemplates` on the cascade specs. -/
def exC6State : GrapherState :=
  match CreateTemplates exAllC6 6 with
  | some (st, _) => st
  | none => ⟨[], []⟩

/-- **C5 witness.** Running `CreateTemplates` on the cascade specs:
the outcome flag is false, `p` is in exactly one map, the flag matches
emptiness of the error map, and re-building the already-built `s1` is a
memoized no-op. -/
theorem claim_C5_witness :
    CreateTemplates exAllC6 6 = some (exC6State, false) ∧
    ¬(hasT exC6State "p" = true ∧ hasE exC6State "p" = true) ∧
    (false = true ↔ exC6State.sequenceErrors = []) ∧
    buildSequence exAllC6 1 exC6State "s1" = some (exC6State, true) := by
  refine ⟨by rfl, ?_, ?_, ?_⟩
  · exact ((claim_C5_memoized_disjoint.1 exAllC6 6 exC6State false
      exAllC6_acyclic (by rfl)).1) "p"
  · exact ((claim_C5_memoized_disjoint.1 exAllC6 6 exC6State false
      exAllC6_acyclic (by rfl)).2)
  · exact claim_C5_memoized_disjoint.2.1 exAllC6 0 exC6State "s1" (by rfl)

/-- **C6 counterexample.** In the cascade specs, sequence `p` references
no subsequence (so no failed one), yet its own missing-arg failure
leaves it with an error and no template — refuting "sequences that
reference no failed subsequence still get templates" as stated. -/
theorem claim_C6_counterexample :
    CreateTemplates exAllC6 6 = some (exC6State, false) ∧
    getSubsequences exAllC6 exOwnFail = [] ∧
    hasT exC6State "p" = false ∧ hasE exC6State "p" = true := by
  refine ⟨by rfl, by rfl, by rfl, by rfl⟩

/-- **C6 (amended).** A sequence whose subsequence build fails records
the failed-subsequence(s) error; a sequence whose node `Sets` promise
args its subsequences do not produce records an error naming each
(node, missing-args) pair; a sequence passing both checks whose template
builds gets the template recorded; any sequence with a recorded error
makes every `buildMany` worklist containing it return false (so every
referencing sequence fails with the failed-subsequence(s) error); and
the whole build still records an outcome for every attempted sequence. -/
theorem claim_C6_error_cascade :
    (∀ (all : List (String × SSequence)) (fuel : Nat) (st : GrapherState)
      (name : String) (seq : SSequence) (st1 : GrapherState),
      hasT st name = false → hasE st name = false →
      assoc all name = some seq →
      buildMany all fuel st (flatSubsequences all seq) = some (st1, false) →
      buildSequence all (fuel + 1) st name =
        some (recordError st1 name GraphErr.failedSubsequences, false)) ∧
    (∀ (all : List (String × SSequence)) (fuel : Nat) (st : GrapherState)
      (name : String) (seq : SSequence) (st1 : GrapherState),
      hasT st name = false → hasE st name = false →
      assoc all name = some seq →
      buildMany all fuel st (flatSubsequences all seq) = some (st1, true) →
      missingSetsOf all st1 seq ≠ [] →
      buildSequence all (fuel + 1) st name =
        some (recordError st1 name
          (GraphErr.missingSets (missingSetsOf all st1 seq)), false)) ∧
    (∀ (all : List (String × SSequence)) (fuel : Nat) (st : GrapherState)
      (name : String) (seq : SSequence) (st1 : GrapherState) (t : Template),
      hasT st name = false → hasE st name = false →
      assoc all name = some seq →
      buildMany all fuel st (flatSubsequences all seq) = some (st1, true) →
      missingSetsOf all st1 seq = [] →
      getTemplate seq = Except.ok t →
      buildSequence all (fuel + 1) st name =
        some (recordTemplate st1 name t, true)) ∧
    (∀ (all : List (String × SSequence)) (fuel : Nat) (st st' : GrapherState)
      (names : List String) (ok : Bool) (s : String),
      AcyclicRefs all → MapsDisjoint st → s ∈ names →
      buildMany all fuel st names = some (st', ok) →
      hasE st' s = true → ok = false) ∧
    (∀ (all : List (String × SSequence)) (fuel : Nat) (st : GrapherState)
      (ok : Bool), AcyclicRefs all →
      CreateTemplates all fuel = some (st, ok) →
      ∀ k ∈ all.map Prod.fst, hasT st k = true ∨ hasE st k = true) := by
  refine ⟨?_, ?_, ?_, ?_, ?_⟩
  · intro all fuel st name seq st1 hT hE hfound hmany
    rw [buildSequence]
    rw [if_neg (by simpa [hasT] using hT), if_neg (by simpa [hasE] using hE),
      hfound]
    simp only []
    have hmany' : buildManyOf (buildSequence all fuel) st
        (flatSubsequences all seq) = some (st1, false) := hmany
    rw [hmany']
    rfl
  · intro all fuel st name seq st1 hT hE hfound hmany hne
    rw [buildSequence]
    rw [if_neg (by simpa [hasT] using hT), if_neg (by simpa [hasE] using hE),
      hfound]
    simp only []
    have hmany' : buildManyOf (buildSequence all fuel) st
        (flatSubsequences all seq) = some (st1, true) := hmany
    rw [hmany']
    have hemp : (missingSetsOf all st1 seq).isEmpty = false := by
      cases hmv : (missingSetsOf all st1 seq).isEmpty with
      | false => rfl
      | true => exact absurd (List.isEmpty_iff.mp hmv) hne
    simp [hemp]
  · intro all fuel st name seq st1 t hT hE hfound hmany hempty hgt
    rw [buildSequence]
    rw [if_neg (by simpa [hasT] using hT), if_neg (by simpa [hasE] using hE),
      hfound]
    simp only []
    have hmany' : buildManyOf (buildSequence all fuel) st
        (flatSubsequences all seq) = some (st1, true) := hmany
    rw [hmany']
    have hemp : (missingSetsOf all st1 seq).isEmpty = true := by
      rw [hempty]
      rfl
    simp only [hemp, Bool.not_true, Bool.false_eq_true, if_false,
      Bool.not_false, if_pos]
    rw [hgt]
  · intro all fuel st st' names ok s hAcyclic hInv hs hmany hE
    by_contra hok
    have hok : ok = true := by simpa using hok
    subst hok
    revert st
    induction names with
    | nil => intro st hInv hmany; simp at hs
    | cons s' rest ih =>
      intro st hInv hmany
      rw [buildMany, buildManyOf] at hmany
      cases heqA : buildSequence all fuel st s' with
      | none => rw [heqA] at hmany; cases hmany
      | some qA =>
        obtain ⟨stA, bA⟩ := qA
        rw [heqA] at hmany
        simp only [] at hmany
        cases heqB : buildManyOf (buildSequence all fuel) stA rest with
        | none => rw [heqB] at hmany; cases hmany
        | some qB =>
          obtain ⟨stB, bB⟩ := qB
          rw [heqB] at hmany
          injection hmany with h'
          have e1 : stB = st' := congrArg Prod.fst h'
          have e2 : (bA && bB) = true := congrArg Prod.snd h'
          subst e1
          obtain ⟨hA, hB⟩ := Bool.and_eq_true_iff.mp e2
          subst hA
          have heqB' : buildMany all fuel stA rest = some (stB, bB) := heqB
          obtain ⟨_, hinvA⟩ := (buildState_inv all hAcyclic fuel).1 st s' stA
            true heqA
          obtain ⟨hInvA, hiffT, _⟩ := hinvA hInv
          rcases List.mem_cons.mp hs with rfl | hs'
          · have hTfin : hasT stB s = true := hasT_mono heqB' (hiffT.mp rfl)
            have hInvFin : MapsDisjoint stB :=
              (buildState_inv all hAcyclic fuel).2 rest stA stB bB heqB'
                |>.2 hInvA
            exact hInvFin s ⟨hTfin, hE⟩
          · subst hB
            exact ih hs' stA hInvA heqB'
  · intro all fuel st ok hAcyclic h k hk
    exact buildMany_records all hAcyclic fuel (all.map Prod.fst) ⟨[], []⟩
      st ok mapsDisjoint_empty h k hk

/-- The grapher state after building `parent`'s subsequences (just
`child`). -/
def exStChild : GrapherState :=
  match buildMany exAllC6 5 ⟨[], []⟩ (flatSubsequences exAllC6 exParent) with
  | some (st, _) => st
  | none => ⟨[], []⟩

/-- **C6 witness.** Building `parent` (whose node promises `z` that
`child` never sets) records the missing-sets error naming the
(node `pn`, arg `z`) pair. -/
theorem claim_C6_witness :
    buildMany exAllC6 5 ⟨[], []⟩ (flatSubsequences exAllC6 exParent) =
      some (exStChild, true) ∧
    missingSetsOf exAllC6 exStChild exParent = [("pn", ["z"])] ∧
    buildSequence exAllC6 6 ⟨[], []⟩ "parent" =
      some (recordError exStChild "parent"
        (GraphErr.missingSets (missingSetsOf exAllC6 exStChild exParent)),
        false) := by
  refine ⟨by rfl, by rfl, ?_⟩
  exact claim_C6_error_cascade.2.1 exAllC6 5 ⟨[], []⟩ "parent" exParent
    exStChild (by rfl) (by rfl) (by rfl) (by rfl) (by decide)

/-! ## Lemmas: Chain observations under the resume rewrite (C7) -/

theorem counterGet_counterAdd (m : List (String × Int)) (j k : String)
    (d : Int) :
    counterGet (counterAdd m j d) k =
      if j = k then counterGet m j + d else counterGet m k := by
  unfold counterAdd
  show counterGet ((j, counterGet m j + d) :: m) k = _
  unfold counterGet
  rw [assoc_cons]
  by_cases h : j = k
  · subst h
    simp
  · have hb : (j == k) = false := by simpa using h
    rw [hb]
    simp [h]

theorem findJob_setState (c : Chain) (j : String) (s : JobState)
    (k : String) :
    (SetJobState c j s).findJob k =
      (c.findJob k).map
        (fun e => if e.id == j then { e with state := s } else e) := by
  show (c.jobChain.jobs.map
      (fun e => if e.id == j then { e with state := s } else e)).find?
      (fun e => e.id == k) =
    (c.jobChain.jobs.find? (fun e => e.id == k)).map
      (fun e => if e.id == j then { e with state := s } else e)
  rw [List.find?_map]
  have hp : ((fun e : PJob => e.id == k) ∘
      (fun e : PJob => if e.id == j then { e with state := s } else e)) =
      (fun e : PJob => e.id == k) := by
    funext e
    by_cases h : e.id == j
    · show ((if e.id == j then { e with state := s } else e).id == k) =
        (e.id == k)
      rw [if_pos h]
    · show ((if e.id == j then { e with state := s } else e).id == k) =
        (e.id == k)
      rw [if_neg h]
  rw [hp]

theorem findJob_incTries (c : Chain) (j : String) (d : Int) (k : String) :
    (IncrementJobTries c j d).findJob k = c.findJob k := rfl

theorem findJob_incSeq (c : Chain) (j : String) (d : Int) (k : String) :
    (IncrementSequenceTries c j d).findJob k = c.findJob k := by
  unfold IncrementSequenceTries
  cases c.findJob j <;> rfl

theorem findJob_id {c : Chain} {k : String} {e : PJob}
    (h : c.findJob k = some e) : e.id = k := by
  unfold Chain.findJob at h
  have := List.find?_some h
  simpa using this

/-- The chain entry found for a job of the chain with duplicate-free ids
is that job itself. -/
theorem findJob_of_mem_nodup {jobs : List PJob} {job : PJob}
    (hnodup : (jobs.map PJob.id).Nodup) (hmem : job ∈ jobs)
    (c : Chain) (hc : c.jobChain.jobs = jobs) :
    c.findJob job.id = some job := by
  unfold Chain.findJob
  rw [hc]
  clear hc
  induction jobs with
  | nil => simp at hmem
  | cons e rest ih =>
    rcases List.mem_cons.mp hmem with rfl | hmem'
    · simp [List.find?_cons]
    · have hne : e.id ≠ job.id := by
        intro hk
        rw [List.map_cons, List.nodup_cons] at hnodup
        refine hnodup.1 ?_
        rw [hk]
        exact List.mem_map.mpr ⟨job, hmem', rfl⟩
      have hn2 : (rest.map PJob.id).Nodup := by
        rw [List.map_cons, List.nodup_cons] at hnodup
        exact hnodup.2
      have hb : (e.id == job.id) = false := by simpa using hne
      rw [List.find?_cons, hb]
      exact ih hn2 hmem'

/-- Frame: one resume step for `job` leaves every observation at a
different key unchanged, including the found entry. -/
theorem resumeStep_frame (c : Chain) (job : PJob) (k : String)
    (hk : job.id ≠ k) :
    (resumeStep c job).findJob k = c.findJob k ∧
    totalTriesOf (resumeStep c job) k = totalTriesOf c k ∧
    latestTriesOf (resumeStep c job) k = latestTriesOf c k ∧
    seqTriesAt (resumeStep c job) k = seqTriesAt c k ∧
    (resumeStep c job).jobChain.requestId = c.jobChain.requestId := by
  unfold resumeStep
  by_cases hs : job.state != JobState.STOPPED
  · rw [if_pos hs]
    exact ⟨rfl, rfl, rfl, rfl, rfl⟩
  · rw [if_neg hs]
    simp only []
    set c1 := IncrementJobTries c job.id (-1) with hc1
    set c2 := SetJobState c1 job.id JobState.PENDING with hc2
    have hfind2 : c2.findJob k = c.findJob k := by
      rw [hc2, findJob_setState, hc1, findJob_incTries]
      cases hf : c.findJob k with
      | none => rfl
      | some e =>
        have : e.id = k := findJob_id hf
        rw [Option.map_some']
        rw [if_neg (by simp [this, Ne.symm hk])]
    have htot2 : totalTriesOf c2 k = totalTriesOf c k := by
      show counterGet (counterAdd c.totalJobTries job.id (-1)) k = _
      rw [counterGet_counterAdd, if_neg hk]
      rfl
    have hlat2 : latestTriesOf c2 k = latestTriesOf c k := by
      show counterGet (counterAdd c.latestRunJobTries job.id (-1)) k = _
      rw [counterGet_counterAdd, if_neg hk]
      rfl
    have hseq2 : c2.sequenceTries = c.sequenceTries := rfl
    by_cases hstart : IsSequenceStartJob c2 job.id
    · rw [if_pos hstart]
      have hkey : ∃ e, c2.findJob job.id = some e ∧ e.sequenceId = job.id := by
        unfold IsSequenceStartJob at hstart
        cases hf : c2.findJob job.id with
        | none => rw [hf] at hstart; cases hstart
        | some e =>
          rw [hf] at hstart
          exact ⟨e, rfl, by simpa using hstart⟩
      obtain ⟨e, hfe, hseqid⟩ := hkey
      constructor
      · rw [findJob_incSeq]
        exact hfind2
      refine ⟨?_, ?_, ?_, ?_⟩
      · show counterGet (IncrementSequenceTries c2 job.id (-1)).totalJobTries k = _
        have : (IncrementSequenceTries c2 job.id (-1)).totalJobTries =
            c2.totalJobTries := by
          unfold IncrementSequenceTries
          cases c2.findJob job.id <;> rfl
        rw [this]
        exact htot2
      · show counterGet (IncrementSequenceTries c2 job.id (-1)).latestRunJobTries k = _
        have : (IncrementSequenceTries c2 job.id (-1)).latestRunJobTries =
            c2.latestRunJobTries := by
          unfold IncrementSequenceTries
          cases c2.findJob job.id <;> rfl
        rw [this]
        exact hlat2
      · show counterGet (IncrementSequenceTries c2 job.id (-1)).sequenceTries k = _
        have hseqs : (IncrementSequenceTries c2 job.id (-1)).sequenceTries =
            counterAdd c2.sequenceTries e.sequenceId (-1) := by
          unfold IncrementSequenceTries
          rw [hfe]
        rw [hseqs, hseqid, counterGet_counterAdd, if_neg hk, hseq2]
        rfl
      · unfold IncrementSequenceTries
        cases c2.findJob job.id <;> rfl
    · rw [if_neg hstart]
      refine ⟨hfind2, htot2, hlat2, ?_, rfl⟩
      show counterGet c2.sequenceTries k = seqTriesAt c k
      rw [hseq2]
      rfl

/-- Hit: the resume step for a STOPPED job rewrites exactly that job's
observations; for a non-STOPPED job it does nothing. -/
theorem resumeStep_hit (c : Chain) (job : PJob) {e : PJob}
    (hfe : c.findJob job.id = some e) (hseqid : e.sequenceId = job.sequenceId) :
    (job.state ≠ JobState.STOPPED → resumeStep c job = c) ∧
    (job.state = JobState.STOPPED →
      (resumeStep c job).jobStateOf job.id = some JobState.PENDING ∧
      totalTriesOf (resumeStep c job) job.id = totalTriesOf c job.id - 1 ∧
      latestTriesOf (resumeStep c job) job.id = latestTriesOf c job.id - 1 ∧
      (job.sequenceId = job.id →
        seqTriesAt (resumeStep c job) job.id = seqTriesAt c job.id - 1) ∧
      (job.sequenceId ≠ job.id →
        seqTriesAt (resumeStep c job) job.id = seqTriesAt c job.id)) := by
  constructor
  · intro hs
    unfold resumeStep
    rw [if_pos (by simpa using hs)]
  · intro hs
    unfold resumeStep
    rw [if_neg (by simp [hs])]
    simp only []
    set c1 := IncrementJobTries c job.id (-1) with hc1
    set c2 := SetJobState c1 job.id JobState.PENDING with hc2
    have hfind2 : c2.findJob job.id =
        some { e with state := JobState.PENDING } := by
      rw [hc2, findJob_setState, hc1, findJob_incTries, hfe]
      rw [Option.map_some']
      rw [if_pos (by simp [findJob_id hfe])]
    have hstate2 : c2.jobStateOf job.id = some JobState.PENDING := by
      unfold Chain.jobStateOf
      rw [hfind2]
      rfl
    have htot2 : totalTriesOf c2 job.id = totalTriesOf c job.id - 1 := by
      show counterGet (counterAdd c.totalJobTries job.id (-1)) job.id = _
      rw [counterGet_counterAdd, if_pos rfl]
      rfl
    have hlat2 : latestTriesOf c2 job.id = latestTriesOf c job.id - 1 := by
      show counterGet (counterAdd c.latestRunJobTries job.id (-1)) job.id = _
      rw [counterGet_counterAdd, if_pos rfl]
      rfl
    have hstart_iff : IsSequenceStartJob c2 job.id =
        (job.sequenceId == job.id) := by
      unfold IsSequenceStartJob
      rw [hfind2]
      show (e.sequenceId == job.id) = (job.sequenceId == job.id)
      rw [hseqid]
    by_cases hseqstart : job.sequenceId = job.id
    · have hguard : IsSequenceStartJob c2 job.id = true := by
        rw [hstart_iff]
        simpa using hseqstart
      rw [if_pos hguard]
      have hfind3 : (IncrementSequenceTries c2 job.id (-1)).findJob job.id =
          c2.findJob job.id := findJob_incSeq _ _ _ _
      refine ⟨?_, ?_, ?_, ?_, ?_⟩
      · unfold Chain.jobStateOf
        rw [hfind3, hfind2]
        rfl
      · have : (IncrementSequenceTries c2 job.id (-1)).totalJobTries =
            c2.totalJobTries := by
          unfold IncrementSequenceTries
          cases c2.findJob job.id <;> rfl
        show counterGet (IncrementSequenceTries c2 job.id (-1)).totalJobTries
          job.id = _
        rw [this]
        exact htot2
      · have : (IncrementSequenceTries c2 job.id (-1)).latestRunJobTries =
            c2.latestRunJobTries := by
          unfold IncrementSequenceTries
          cases c2.findJob job.id <;> rfl
        show counterGet (IncrementSequenceTries c2 job.id (-1)).latestRunJobTries
          job.id = _
        rw [this]
        exact hlat2
      · intro _
        show counterGet (IncrementSequenceTries c2 job.id (-1)).sequenceTries
          job.id = _
        have hseqs : (IncrementSequenceTries c2 job.id (-1)).sequenceTries =
            counterAdd c2.sequenceTries e.sequenceId (-1) := by
          unfold IncrementSequenceTries
          rw [hfind2]
        rw [hseqs, hseqid, hseqstart, counterGet_counterAdd, if_pos rfl]
        rfl
      · intro hcon
        exact absurd hseqstart hcon
    · have hguard : IsSequenceStartJob c2 job.id = false := by
        rw [hstart_iff]
        simpa using hseqstart
      rw [if_neg (by simp [hguard])]
      refine ⟨hstate2, htot2, hlat2, ?_, ?_⟩
      · intro hcon
        exact absurd hcon hseqstart
      · intro _
        rfl

/-- Folding the resume step over jobs none of which has id `k` leaves
every observation at `k` unchanged. -/
theorem resumeFold_frame (l : List PJob) (c : Chain) (k : String)
    (hk : ∀ j ∈ l, j.id ≠ k) :
    (List.foldl resumeStep c l).findJob k = c.findJob k ∧
    totalTriesOf (List.foldl resumeStep c l) k = totalTriesOf c k ∧
    latestTriesOf (List.foldl resumeStep c l) k = latestTriesOf c k ∧
    seqTriesAt (List.foldl resumeStep c l) k = seqTriesAt c k := by
  induction l generalizing c with
  | nil => exact ⟨rfl, rfl, rfl, rfl⟩
  | cons j rest ih =>
    rw [List.foldl_cons]
    have hstep := resumeStep_frame c j k (hk j (List.mem_cons_self j rest))
    have hrest := ih (resumeStep c j)
      (fun j' hj' => hk j' (List.mem_cons_of_mem j hj'))
    exact ⟨hrest.1.trans hstep.1, hrest.2.1.trans hstep.2.1,
      hrest.2.2.1.trans hstep.2.2.1, hrest.2.2.2.trans hstep.2.2.2.1⟩

/-- C7: `MakeFromSJC` rewrites every STOPPED job of the suspended chain to
PENDING and decrements its total and latest-run try counters by 1; if the
job is a sequence-start job (sequenceId = id) the sequence-try counter is
decremented too, otherwise it is untouched; a job in any other state keeps
its state and all of its counters exactly as stored in the SJC. -/
theorem claim_C7_resume (sjc : SJC) (job : PJob)
    (hnodup : (sjc.jobChain.jobs.map PJob.id).Nodup)
    (hmem : job ∈ sjc.jobChain.jobs) :
    (job.state = JobState.STOPPED →
      (MakeFromSJC sjc).jobStateOf job.id = some JobState.PENDING ∧
      totalTriesOf (MakeFromSJC sjc) job.id =
        counterGet sjc.totalJobTries job.id - 1 ∧
      latestTriesOf (MakeFromSJC sjc) job.id =
        counterGet sjc.latestRunJobTries job.id - 1 ∧
      (job.sequenceId = job.id →
        seqTriesAt (MakeFromSJC sjc) job.id =
          counterGet sjc.sequenceTries job.id - 1) ∧
      (job.sequenceId ≠ job.id →
        seqTriesAt (MakeFromSJC sjc) job.id =
          counterGet sjc.sequenceTries job.id)) ∧
    (job.state ≠ JobState.STOPPED →
      (MakeFromSJC sjc).jobStateOf job.id = some job.state ∧
      totalTriesOf (MakeFromSJC sjc) job.id =
        counterGet sjc.totalJobTries job.id ∧
      latestTriesOf (MakeFromSJC sjc) job.id =
        counterGet sjc.latestRunJobTries job.id ∧
      seqTriesAt (MakeFromSJC sjc) job.id =
        counterGet sjc.sequenceTries job.id) := by
  obtain ⟨l₁, l₂, hsplit⟩ := List.append_of_mem hmem
  have hc0jobs : (NewChain sjc.jobChain sjc.sequenceTries sjc.totalJobTries
      sjc.latestRunJobTries).jobChain.jobs = sjc.jobChain.jobs := rfl
  have hfind0 : (NewChain sjc.jobChain sjc.sequenceTries sjc.totalJobTries
      sjc.latestRunJobTries).findJob job.id = some job :=
    findJob_of_mem_nodup hnodup hmem _ hc0jobs
  have hM : MakeFromSJC sjc = List.foldl resumeStep
      (NewChain sjc.jobChain sjc.sequenceTries sjc.totalJobTries
        sjc.latestRunJobTries) (l₁ ++ job :: l₂) := by
    show List.foldl resumeStep _ sjc.jobChain.jobs = _
    rw [hsplit]
  have hids : (l₁.map PJob.id ++ job.id :: l₂.map PJob.id).Nodup := by
    have : sjc.jobChain.jobs.map PJob.id =
        l₁.map PJob.id ++ job.id :: l₂.map PJob.id := by
      rw [hsplit, List.map_append, List.map_cons]
    rw [← this]
    exact hnodup
  have hnotmem : job.id ∉ l₁.map PJob.id ++ l₂.map PJob.id := by
    have := (List.nodup_middle.mp hids)
    exact (List.nodup_cons.mp this).1
  have h1 : ∀ j ∈ l₁, j.id ≠ job.id := by
    intro j hj heq
    exact hnotmem (List.mem_append_left _ (List.mem_map.mpr ⟨j, hj, heq⟩))
  have h2 : ∀ j ∈ l₂, j.id ≠ job.id := by
    intro j hj heq
    exact hnotmem (List.mem_append_right _ (List.mem_map.mpr ⟨j, hj, heq⟩))
  rw [hM, List.foldl_append, List.foldl_cons]
  have hA := resumeFold_frame l₁ (NewChain sjc.jobChain sjc.sequenceTries
    sjc.totalJobTries sjc.latestRunJobTries) job.id h1
  have hfeA : (List.foldl resumeStep (NewChain sjc.jobChain sjc.sequenceTries
      sjc.totalJobTries sjc.latestRunJobTries) l₁).findJob job.id =
      some job := hA.1.trans hfind0
  have hit := resumeStep_hit (List.foldl resumeStep (NewChain sjc.jobChain
    sjc.sequenceTries sjc.totalJobTries sjc.latestRunJobTries) l₁) job
    hfeA rfl
  have hB := resumeFold_frame l₂ (resumeStep (List.foldl resumeStep
    (NewChain sjc.jobChain sjc.sequenceTries sjc.totalJobTries
      sjc.latestRunJobTries) l₁) job) job.id h2
  constructor
  · intro hs
    have hh := hit.2 hs
    refine ⟨?_, ?_, ?_, ?_, ?_⟩
    · show (Option.map _ ((List.foldl resumeStep _ l₂).findJob job.id)) = _
      rw [hB.1]
      exact hh.1
    · rw [hB.2.1, hh.2.1, hA.2.1]
      rfl
    · rw [hB.2.2.1, hh.2.2.1, hA.2.2.1]
      rfl
    · intro hstart
      rw [hB.2.2.2, hh.2.2.2.1 hstart, hA.2.2.2]
      rfl
    · intro hstart
      rw [hB.2.2.2, hh.2.2.2.2 hstart, hA.2.2.2]
      rfl
  · intro hs
    have hid : resumeStep (List.foldl resumeStep (NewChain sjc.jobChain
        sjc.sequenceTries sjc.totalJobTries sjc.latestRunJobTries) l₁) job =
        List.foldl resumeStep (NewChain sjc.jobChain sjc.sequenceTries
          sjc.totalJobTries sjc.latestRunJobTries) l₁ := hit.1 hs
    rw [hid]
    have hC := resumeFold_frame l₂ (List.foldl resumeStep (NewChain
      sjc.jobChain sjc.sequenceTries sjc.totalJobTries
        sjc.latestRunJobTries) l₁) job.id h2
    refine ⟨?_, ?_, ?_, ?_⟩
    · show (Option.map _ ((List.foldl resumeStep _ l₂).findJob job.id)) = _
      rw [hC.1, hfeA]
      rfl
    · rw [hC.2.1, hA.2.1]
      rfl
    · rw [hC.2.2.1, hA.2.2.1]
      rfl
    · rw [hC.2.2.2, hA.2.2.2]
      rfl

/-- A suspended chain: j1 is a STOPPED sequence-start job, j2 a STOPPED
non-start job of j1's sequence, j3 a COMPLETE job. -/
def exJ1 : PJob := ⟨"j1", "job one", "t", JobState.STOPPED, "j1", ""⟩

def exJ2 : PJob := ⟨"j2", "job two", "t", JobState.STOPPED, "j1", ""⟩

def exJ3 : PJob := ⟨"j3", "job three", "t", JobState.COMPLETE, "j3", ""⟩

def exSJC : SJC :=
  ⟨"req-1", ⟨"req-1", [exJ1, exJ2, exJ3]⟩, [("j1", 2)],
    [("j1", 2), ("j2", 1), ("j3", 1)], [("j1", 1), ("j2", 1), ("j3", 1)]⟩

/-- Witness for C7 on a concrete suspended job chain: the STOPPED
sequence-start job j1 comes back PENDING with all three counters
decremented. -/
theorem claim_C7_witness :
    ((exSJC.jobChain.jobs.map PJob.id).Nodup ∧
      exJ1 ∈ exSJC.jobChain.jobs ∧ exJ1.state = JobState.STOPPED) ∧
    (MakeFromSJC exSJC).jobStateOf "j1" = some JobState.PENDING ∧
    totalTriesOf (MakeFromSJC exSJC) "j1" = 1 ∧
    latestTriesOf (MakeFromSJC exSJC) "j1" = 0 ∧
    seqTriesAt (MakeFromSJC exSJC) "j1" = 1 := by
  have h := (claim_C7_resume exSJC exJ1 (by decide) (by decide)).1 rfl
  exact ⟨⟨by decide, by decide, rfl⟩, h.1, h.2.1.trans (by decide),
    h.2.2.1.trans (by decide), (h.2.2.2.1 rfl).trans (by decide)⟩

/-- C8: `Stop` is idempotent.  On a running traverser it closes stopChan
and doneChan, marks the traverser stopped and swaps in the stopped
reaper, returning nil (or the wrapped stop-running-jobs error); calling
`Stop` again on the resulting state returns nil and changes nothing, so
stopChan is closed exactly once.  On an already-stopped traverser it
returns nil unchanged; on a suspended traverser it returns
ErrShuttingDown unchanged. -/
theorem claim_C8_stop_idempotent (t : TravState) (b b' : Bool) :
    (t.stopped = false → t.suspended = false →
      stopTraverser t b =
        ({ t with
            stopped := true
            stopChanClosed := true
            doneChanClosed := true
            reaper := ReaperKind.stoppedReaper },
          if b then StopOutcome.errStopFailed else StopOutcome.nil) ∧
      stopTraverser (stopTraverser t b).1 b' =
        ((stopTraverser t b).1, StopOutcome.nil)) ∧
    (t.stopped = true → stopTraverser t b = (t, StopOutcome.nil)) ∧
    (t.suspended = true → t.stopped = false →
      stopTraverser t b = (t, StopOutcome.errShuttingDown)) := by
  refine ⟨?_, ?_, ?_⟩
  · intro h1 h2
    constructor
    · simp [stopTraverser, h1, h2]
    · simp [stopTraverser, h1, h2]
  · intro h1
    simp [stopTraverser, h1]
  · intro h1 h2
    simp [stopTraverser, h1, h2]

/-- Witness for C8 on a fresh traverser: the first Stop closes the
channels and stops, the second Stop is a nil no-op, and Stop after a
shutdown returns ErrShuttingDown unchanged. -/
theorem claim_C8_witness :
    ((newTravState.stopped = false ∧ newTravState.suspended = false) ∧
      stopTraverser newTravState false =
        ({ newTravState with
            stopped := true
            stopChanClosed := true
            doneChanClosed := true
            reaper := ReaperKind.stoppedReaper },
          StopOutcome.nil) ∧
      stopTraverser (stopTraverser newTravState false).1 true =
        ((stopTraverser newTravState false).1, StopOutcome.nil)) ∧
    ((shutdownTraverser newTravState).suspended = true ∧
      stopTraverser (shutdownTraverser newTravState) false =
        (shutdownTraverser newTravState, StopOutcome.errShuttingDown)) := by
  have h1 := (claim_C8_stop_idempotent newTravState false true).1 rfl rfl
  have h3 := (claim_C8_stop_idempotent (shutdownTraverser newTravState)
    false false).2.2 (by decide) (by decide)
  exact ⟨⟨⟨rfl, rfl⟩, h1.1.trans (by decide), h1.2⟩, ⟨by decide, h3⟩⟩

/-! ## The TestProcessSpecs vector (spec package test) -/

/-- `TestProcessSpecs` input node `node-a`. -/
def tpNodeA : SNode :=
  { name := "", category := some "job", nodeType := some "job-type-a",
    each := ["list:element"], ifArg := none, eq := [],
    args := [⟨"arg-a", none⟩], sets := [⟨"arg-b", none⟩],
    deps := [], retry := 3, retryWait := "" }

/-- `TestProcessSpecs` input node `node-b`. -/
def tpNodeB : SNode :=
  { name := "", category := some "sequence", nodeType := some "seq-b",
    each := ["list:element"], ifArg := none, eq := [],
    args := [⟨"arg-b", some "arg-b0"⟩], sets := [⟨"arg-c0", some "arg-c"⟩],
    deps := ["node-1"], retry := 3, retryWait := "10s" }

/-- `TestProcessSpecs` input node `node-c`. -/
def tpNodeC : SNode :=
  { name := "", category := some "conditional", nodeType := some "seq-c",
    each := [], ifArg := some "arg-if",
    eq := [("cond-1", "seq-1"), ("default", "default")],
    args := [⟨"arg-d", some "arg-d0"⟩, ⟨"arg-e", none⟩],
    sets := [⟨"arg-f0", some "arg-f"⟩, ⟨"arg-g", none⟩],
    deps := ["node-1"], retry := 0, retryWait := "" }

/-- `TestProcessSpecs` input sequence `seq-a`. -/
def tpSeqA : SSequence :=
  { name := "", request := true,
    args := { required := [⟨"required-a", none⟩],
              optional := [⟨"optional-a", some "value"⟩],
              static := [⟨"static-a", some "value"⟩] },
    nodes := [("node-a", tpNodeA), ("node-b", tpNodeB), ("node-c", tpNodeC)] }

/-- `TestProcessSpecs` input specs. -/
def tpSpecsIn : List (String × SSequence) := [("seq-a", tpSeqA)]

/-- `TestProcessSpecs` expected `node-a`: Name, Given, As and RetryWait
filled in. -/
def tpNodeAOut : SNode :=
  { name := "node-a", category := some "job", nodeType := some "job-type-a",
    each := ["list:element"], ifArg := none, eq := [],
    args := [⟨"arg-a", some "arg-a"⟩], sets := [⟨"arg-b", some "arg-b"⟩],
    deps := [], retry := 3, retryWait := "0s" }

/-- `TestProcessSpecs` expected `node-b`: only Name changes. -/
def tpNodeBOut : SNode :=
  { name := "node-b", category := some "sequence", nodeType := some "seq-b",
    each := ["list:element"], ifArg := none, eq := [],
    args := [⟨"arg-b", some "arg-b0"⟩], sets := [⟨"arg-c0", some "arg-c"⟩],
    deps := ["node-1"], retry := 3, retryWait := "10s" }

/-- `TestProcessSpecs` expected `node-c`: Name, Given for arg-e and As
for arg-g filled in; RetryWait stays empty because Retry is 0. -/
def tpNodeCOut : SNode :=
  { name := "node-c", category := some "conditional", nodeType := some "seq-c",
    each := [], ifArg := some "arg-if",
    eq := [("cond-1", "seq-1"), ("default", "default")],
    args := [⟨"arg-d", some "arg-d0"⟩, ⟨"arg-e", some "arg-e"⟩],
    sets := [⟨"arg-f0", some "arg-f"⟩, ⟨"arg-g", some "arg-g"⟩],
    deps := ["node-1"], retry := 0, retryWait := "" }

/-- `TestProcessSpecs` expected sequence. -/
def tpSeqAOut : SSequence :=
  { name := "seq-a", request := true,
    args := { required := [⟨"required-a", none⟩],
              optional := [⟨"optional-a", some "value"⟩],
              static := [⟨"static-a", some "value"⟩] },
    nodes := [("node-a", tpNodeAOut), ("node-b", tpNodeBOut),
      ("node-c", tpNodeCOut)] }

/-- `TestProcessSpecs` expected specs. -/
def tpSpecsOut : List (String × SSequence) := [("seq-a", tpSeqAOut)]

/-- C9: `ProcessSpecs` fills derived defaults and changes nothing else:
every sequence keeps its key and gets its Name set from it, every node
gets its Name from its key, every Args entry gets `Given` defaulted to
`Expected`, every Sets entry gets `As` defaulted to `Arg`, `RetryWait`
becomes "0s" exactly when it was empty with a positive Retry, and every
other field is unchanged; on the `TestProcessSpecs` input it produces
exactly the test's expected specs. -/
theorem claim_C9_process_specs :
    (∀ (specs : List (String × SSequence)), ∀ p ∈ specs,
      (p.1, processSequence p.1 p.2) ∈ ProcessSpecs specs) ∧
    (∀ (key : String) (sq : SSequence),
      (processSequence key sq).name = key ∧
      (processSequence key sq).request = sq.request ∧
      (processSequence key sq).args = sq.args ∧
      (processSequence key sq).nodes.map Prod.fst = sq.nodes.map Prod.fst) ∧
    (∀ (key : String) (nd : SNode),
      (processNode key nd).name = key ∧
      (processNode key nd).category = nd.category ∧
      (processNode key nd).nodeType = nd.nodeType ∧
      (processNode key nd).each = nd.each ∧
      (processNode key nd).ifArg = nd.ifArg ∧
      (processNode key nd).eq = nd.eq ∧
      (processNode key nd).deps = nd.deps ∧
      (processNode key nd).retry = nd.retry ∧
      (processNode key nd).args.length = nd.args.length ∧
      (processNode key nd).sets.length = nd.sets.length ∧
      (∀ a ∈ nd.args,
        (⟨a.expected, some (a.given.getD a.expected)⟩ : NodeArg) ∈
          (processNode key nd).args) ∧
      (∀ s ∈ nd.sets,
        (⟨s.arg, some (s.asName.getD s.arg)⟩ : NodeSet) ∈
          (processNode key nd).sets) ∧
      (nd.retryWait = "" ∧ 0 < nd.retry →
        (processNode key nd).retryWait = "0s") ∧
      (¬(nd.retryWait = "" ∧ 0 < nd.retry) →
        (processNode key nd).retryWait = nd.retryWait)) ∧
    ProcessSpecs tpSpecsIn = tpSpecsOut := by
  refine ⟨?_, ?_, ?_, ?_⟩
  · intro specs p hp
    exact List.mem_map.mpr ⟨p, hp, rfl⟩
  · intro key sq
    refine ⟨rfl, rfl, rfl, ?_⟩
    show (sq.nodes.map (fun p => (p.1, processNode p.1 p.2))).map Prod.fst = _
    rw [List.map_map]
    rfl
  · intro key nd
    refine ⟨rfl, rfl, rfl, rfl, rfl, rfl, rfl, rfl, ?_, ?_, ?_, ?_, ?_, ?_⟩
    · simp [processNode]
    · simp [processNode]
    · intro a ha
      exact List.mem_map.mpr ⟨a, ha, rfl⟩
    · intro s hs
      exact List.mem_map.mpr ⟨s, hs, rfl⟩
    · intro h
      show (if nd.retryWait = "" ∧ 0 < nd.retry then "0s" else nd.retryWait)
        = "0s"
      rw [if_pos h]
    · intro h
      show (if nd.retryWait = "" ∧ 0 < nd.retry then "0s" else nd.retryWait)
        = nd.retryWait
      rw [if_neg h]
  · rfl

/-- Witness for C9: on the TestProcessSpecs data, seq-a's processed
sequence is in the output, node-c's bare `arg-e` entry gets
`Given = arg-e`, and node-a's empty RetryWait with Retry 3 becomes
"0s". -/
theorem claim_C9_witness :
    (("seq-a", tpSeqA) ∈ tpSpecsIn ∧
      ("seq-a", processSequence "seq-a" tpSeqA) ∈ ProcessSpecs tpSpecsIn) ∧
    ((⟨"arg-e", none⟩ : NodeArg) ∈ tpNodeC.args ∧
      (⟨"arg-e", some "arg-e"⟩ : NodeArg) ∈
        (processNode "node-c" tpNodeC).args) ∧
    ((tpNodeA.retryWait = "" ∧ 0 < tpNodeA.retry) ∧
      (processNode "node-a" tpNodeA).retryWait = "0s") := by
  obtain ⟨hmem, hseq, hnode, hconc⟩ := claim_C9_process_specs
  obtain ⟨_, _, _, _, _, _, _, _, _, _, hargsC, _, _, _⟩ :=
    hnode "node-c" tpNodeC
  obtain ⟨_, _, _, _, _, _, _, _, _, _, _, _, hrwA, _⟩ :=
    hnode "node-a" tpNodeA
  refine ⟨⟨by decide, ?_⟩, ⟨by decide, ?_⟩, ⟨⟨rfl, by decide⟩, ?_⟩⟩
  · exact hmem tpSpecsIn ("seq-a", tpSeqA) (by decide)
  · exact hargsC (⟨"arg-e", none⟩ : NodeArg) (by decide)
  · exact hrwA ⟨rfl, by decide⟩

/-! ## Lemmas: the worker goroutine on a failed runner factory (C10) -/

theorem incSeq_jobChain (c : Chain) (j : String) (d : Int) :
    (IncrementSequenceTries c j d).jobChain = c.jobChain := by
  unfold IncrementSequenceTries
  cases c.findJob j <;> rfl

theorem incSeq_totalJobTries (c : Chain) (j : String) (d : Int) :
    (IncrementSequenceTries c j d).totalJobTries = c.totalJobTries := by
  unfold IncrementSequenceTries
  cases c.findJob j <;> rfl

/-- `retry.Do` makes at most `n` more calls. -/
theorem retryDo_attempts_le (n : Nat) (acc : Nat → Bool) :
    ∀ made, (retryDo n acc made).2 ≤ made + n := by
  induction n with
  | zero =>
    intro made
    simp [retryDo]
  | succ m ih =>
    intro made
    unfold retryDo
    by_cases h : acc made
    · rw [if_pos h]
      show made + 1 ≤ made + (m + 1)
      omega
    · rw [if_neg h]
      have hr := ih (made + 1)
      omega

/-- C10: when the runner factory fails, the worker goroutine never
registers the job in the runner repo and never sets the chain job state
to RUNNING (all chain job states are untouched); it hands the job to
doneJobChan marked FAIL, and it sends a JobLog whose Try is the job's
total tries, with zero start/finish times, Exit 1 and the wrapped
factory error message, retried at most `jobLogTries = 3` times with a
`jobLogRetryWait = 500` ms wait. -/
theorem claim_C10_factory_fail (c : Chain) (job : PJob) (msg : String)
    (rmAccepts : Nat → Bool) (w : WorkerResult)
    (hw : runJobOnce c job (Except.error msg) rmAccepts = w) :
    w.runnerRepoSet = false ∧
    w.setRunningCalled = false ∧
    w.doneJob = { job with state := JobState.FAIL } ∧
    (∀ k, w.chain.jobStateOf k = c.jobStateOf k) ∧
    ∃ res, w.jobLog = some res ∧
      res.jl = { requestId := c.jobChain.requestId
                 jobId := job.id
                 name := job.name
                 jobType := job.jobType
                 tryCount := totalTriesOf c job.id
                 startedAt := 0
                 finishedAt := 0
                 state := JobState.FAIL
                 exitCode := 1
                 errMsg := "problem creating job runner: " ++ msg } ∧
      res.attempts ≤ jobLogTries ∧ jobLogTries = 3 ∧ jobLogRetryWait = 500 := by
  subst hw
  have h1 : (if IsSequenceStartJob c job.id then
      IncrementSequenceTries c job.id 1 else c).jobChain = c.jobChain := by
    by_cases hguard : IsSequenceStartJob c job.id
    · rw [if_pos hguard]
      exact incSeq_jobChain c job.id 1
    · rw [if_neg hguard]
  have h2 : (if IsSequenceStartJob c job.id then
      IncrementSequenceTries c job.id 1 else c).totalJobTries =
      c.totalJobTries := by
    by_cases hguard : IsSequenceStartJob c job.id
    · rw [if_pos hguard]
      exact incSeq_totalJobTries c job.id 1
    · rw [if_neg hguard]
  have h3 : ∀ k, (if IsSequenceStartJob c job.id then
      IncrementSequenceTries c job.id 1 else c).findJob k = c.findJob k := by
    intro k
    by_cases hguard : IsSequenceStartJob c job.id
    · rw [if_pos hguard]
      exact findJob_incSeq c job.id 1 k
    · rw [if_neg hguard]
  refine ⟨rfl, rfl, rfl, ?_, ?_⟩
  · intro k
    show ((if IsSequenceStartJob c job.id then
      IncrementSequenceTries c job.id 1 else c).findJob k).map _ =
        (c.findJob k).map _
    rw [h3 k]
  · refine ⟨sendJL (if IsSequenceStartJob c job.id then
      IncrementSequenceTries c job.id 1 else c)
      { job with state := JobState.FAIL }
      ("problem creating job runner: " ++ msg) rmAccepts, rfl, ?_, ?_, rfl, rfl⟩
    · show JobLog.mk
        ((if IsSequenceStartJob c job.id then
          IncrementSequenceTries c job.id 1 else c).jobChain.requestId)
        job.id job.name job.jobType
        (totalTriesOf (if IsSequenceStartJob c job.id then
          IncrementSequenceTries c job.id 1 else c) job.id)
        0 0 JobState.FAIL 1 ("problem creating job runner: " ++ msg) = _
      show JobLog.mk _ _ _ _ (counterGet (if IsSequenceStartJob c job.id then
          IncrementSequenceTries c job.id 1 else c).totalJobTries job.id)
        _ _ _ _ _ = _
      rw [h1, h2]
      rfl
    · show (retryDo jobLogTries rmAccepts 0).2 ≤ jobLogTries
      have := retryDo_attempts_le jobLogTries rmAccepts 0
      omega

/-- A chain with the single COMPLETE sequence-start job j3. -/
def exC10Chain : Chain := ⟨⟨"req-9", [exJ3]⟩, [], [("j3", 2)], [("j3", 1)]⟩

/-- Witness for C10: a failed factory on the concrete chain leaves the
chain state alone, fails the job to doneJobChan and builds the expected
job log, delivered on the second of at most 3 attempts. -/
theorem claim_C10_witness :
    (runJobOnce exC10Chain exJ3 (Except.error "boom")
        (fun n => n == 1)).runnerRepoSet = false ∧
    (runJobOnce exC10Chain exJ3 (Except.error "boom")
        (fun n => n == 1)).setRunningCalled = false ∧
    (runJobOnce exC10Chain exJ3 (Except.error "boom")
        (fun n => n == 1)).doneJob.state = JobState.FAIL ∧
    (runJobOnce exC10Chain exJ3 (Except.error "boom")
        (fun n => n == 1)).chain.jobStateOf "j3" = some JobState.COMPLETE ∧
    ∃ res, (runJobOnce exC10Chain exJ3 (Except.error "boom")
        (fun n => n == 1)).jobLog = some res ∧
      res.jl.tryCount = 2 ∧ res.jl.exitCode = 1 ∧
      res.jl.errMsg = "problem creating job runner: boom" ∧
      res.attempts ≤ 3 := by
  obtain ⟨h1, h2, h3, h4, res, hres, hjl, hatt, _, _⟩ :=
    claim_C10_factory_fail exC10Chain exJ3 "boom" (fun n => n == 1) _ rfl
  refine ⟨h1, h2, ?_, ?_, res, hres, ?_, ?_, ?_, hatt⟩
  · rw [h3]
  · exact (h4 "j3").trans (by decide)
  · rw [hjl]
    decide
  · rw [hjl]
  · rw [hjl]
    decide

end SpinCycle
